import Mathlib

/-!
Verification development for the web-scraping crawler core of the
cbs_utils repository (src/cbs_utils/web_scraping.py, plus get_dir_size
from src/cbs_utils/misc.py).

The Python source is shallowly embedded: pure helper functions become
Lean functions over String / List Char; the stateful crawler
(UrlSearchStrings with its HRefCheck link classifier and RequestUrl
scheme resolver) becomes an explicitly state-passing, fuel-indexed
recursive function that also emits a trace of events; the disk-caching
decorator (cache_to_disk) becomes a function over an explicit
file-system model.  External collaborators (the network, the regex
engine, the HTML parser, the public-suffix list of tldextract) are
modelled at their interface boundary: the network is an oracle
function, a compiled regex is a function from a string to its list of
matches, a parsed page is its list of text nodes, frame src values and
a hyperlink href values, and tldextract is implemented over a fixed
snapshot of common public suffixes (sufficient for every concrete
input used below).
-/

namespace CbsUtils

/-! ## Character and string helpers

The Python source manipulates str values with startswith, split,
os.path.splitext and small regular expressions.  These are implemented
here over List Char so that every definition reduces in the kernel
(String.decidableLT and friends do not). -/

/-- One step of case folding for ASCII letters, used to model
Python str.lower() on the inputs occurring here (ASCII). -/
def asciiLower (c : Char) : Char :=
  if 'A' ≤ c ∧ c ≤ 'Z' then Char.ofNat (c.toNat + 32) else c

/-- Model of str.lower() (ASCII inputs). -/
def strLower (s : String) : String := String.mk (s.data.map asciiLower)

/-- Split a character list at every occurrence of the separator, like
Python str.split(sep) for a one-character separator. -/
def splitOnCharAux (sep : Char) : List Char → List Char → List (List Char)
  | [], acc => [acc.reverse]
  | c :: rest, acc =>
    if c = sep then acc.reverse :: splitOnCharAux sep rest []
    else splitOnCharAux sep rest (c :: acc)

/-- Python str.split(sep) for a one-character separator; on the empty
string it returns a single empty field, as in Python. -/
def splitOnChar (sep : Char) (s : String) : List String :=
  (splitOnCharAux sep s.data []).map String.mk

/-- Python sep.join(parts) for a one-character separator. -/
def joinChar (sep : Char) : List String → String
  | [] => ""
  | [p] => p
  | p :: q :: rest => p ++ String.mk [sep] ++ joinChar sep (q :: rest)

/-- Boolean model of str.startswith. -/
def strStarts (s pre : String) : Bool := pre.data.isPrefixOf s.data

/-- Boolean model of str.endswith. -/
def strEnds (s suf : String) : Bool := suf.data.isSuffixOf s.data

/-- Boolean membership of a character in a string, Python c in s. -/
def strHasChar (c : Char) (s : String) : Bool := s.data.contains c

/-- Python s[n:] for ASCII strings. -/
def strDrop (s : String) (n : Nat) : String := String.mk (s.data.drop n)

/-- Python s[:n] for ASCII strings. -/
def strTake (s : String) (n : Nat) : String := String.mk (s.data.take n)

/-- Characters of s up to the first character satisfying the stop
predicate. -/
def takeUntil (stop : Char → Bool) (s : String) : String :=
  String.mk (s.data.takeWhile (fun c => ¬ stop c))

/-- Length in characters. -/
def strLen (s : String) : Nat := s.data.length

/-- Model of re.sub applied with pattern http[s]{0,1}:// and empty
replacement: a left-to-right scan removing every non-overlapping
occurrence of https:// or http:// (the greedy optional s matches
https:// first whenever both could match). -/
def stripSchemaFuel : Nat → List Char → List Char
  | 0, l => l
  | _ + 1, [] => []
  | fuel + 1, c :: rest =>
    if "https://".data.isPrefixOf (c :: rest) then
      stripSchemaFuel fuel ((c :: rest).drop 8)
    else if "http://".data.isPrefixOf (c :: rest) then
      stripSchemaFuel fuel ((c :: rest).drop 7)
    else
      c :: stripSchemaFuel fuel rest

/-- Scan of the character list removing scheme occurrences; the fuel
equals the length of the list, which bounds the number of steps. -/
def stripSchemaList (l : List Char) : List Char := stripSchemaFuel l.length l

/-- Source strip_url_schema: re.sub(http[s]{0,1}://, empty, url). -/
def strip_url_schema (url : String) : String := String.mk (stripSchemaList url.data)

/-- Removal of every non-overlapping occurrence of a nonempty pattern,
scanning left to right.  Models re.sub(pat, empty, s) when the pattern
text contains no active regex metacharacters (in the source the
pattern is the stripped base url; the dot in a domain name is in
principle a regex wildcard, which no input below exercises). -/
def removeOccFuel (p : Char) (ps : List Char) : Nat → List Char → List Char
  | 0, l => l
  | _ + 1, [] => []
  | fuel + 1, c :: rest =>
    if (p :: ps).isPrefixOf (c :: rest) then
      removeOccFuel p ps fuel ((c :: rest).drop (p :: ps).length)
    else
      c :: removeOccFuel p ps fuel rest

/-- Model of re.sub(pat, empty, s) for a literal pattern; the empty
pattern leaves the string unchanged. -/
def removeOccurrences (pat s : String) : String :=
  match pat.data with
  | [] => s
  | p :: ps => String.mk (removeOccFuel p ps s.data.length s.data)

/-- Model of re.sub applied with pattern caret-slash-or-slash-dollar and
empty replacement (line 207 of web_scraping.py): it removes at most one
leading and at most one trailing slash. -/
def trimSlashes (s : String) : String :=
  let l := if s.data.head? = some '/' then s.data.drop 1 else s.data
  let l := if l.getLast? = some '/' then l.dropLast else l
  String.mk l

/-! ## tldextract model

tldextract is an external collaborator (spec section 6: registrable
domain extraction).  It is modelled with a fixed snapshot of common
public suffixes, following the algorithm of the library: strip a
leading scheme, keep the host part up to the first slash, question
mark or hash, lower-case it, split on dots, and take the longest
suffix of the label list found in the suffix snapshot; the label just
before the matched suffix is the domain and the remaining labels are
the subdomain.  When no suffix matches, the last label is the domain
(so the relative href about.html is extracted with domain html, which
line 130 of the source relies on). -/

def publicSuffixes : List String := ["com", "org", "net", "nl", "io", "co.uk", "uk"]

structure TldExtract where
  subdomain : String
  domain : String
  suffix : String
deriving DecidableEq

/-- The registered_domain property of a tldextract result. -/
def TldExtract.registeredDomain (t : TldExtract) : String :=
  if t.domain ≠ "" ∧ t.suffix ≠ "" then t.domain ++ "." ++ t.suffix else ""

/-- Index of the label where the public suffix starts, or the number of
labels when no suffix of the label list is a known public suffix.  A
smaller index is a longer (preferred) suffix. -/
def suffixStart (labels : List String) : Nat :=
  match (List.range labels.length).find? (fun i => publicSuffixes.contains (joinChar '.' (labels.drop i))) with
  | some i => i
  | none => labels.length

/-- Model of tldextract.extract. -/
def tldextract (url : String) : TldExtract :=
  let noScheme :=
    if strStarts url "https://" then strDrop url 8
    else if strStarts url "http://" then strDrop url 7
    else url
  let netloc := strLower (takeUntil (fun c => c = '/' ∨ c = '?' ∨ c = '#') noScheme)
  let labels := splitOnChar '.' netloc
  let i := suffixStart labels
  { subdomain := if i ≥ 1 then joinChar '.' (labels.take (i - 1)) else ""
    domain := if i = 0 then "" else (labels.drop (i - 1)).headD ""
    suffix := if i < labels.length then joinChar '.' (labels.drop i) else "" }

/-- Source get_clean_url: base of a url without the relative part.
tldextract raises TypeError on None, which the source catches; hence
the Option argument. -/
def get_clean_url : Option String → Option String
  | none => none
  | some url =>
    let cl := tldextract url
    if cl.subdomain = "" then some cl.registeredDomain
    else some (cl.subdomain ++ "." ++ cl.registeredDomain)

/-- Source is_url: urlparse succeeds with a nonempty scheme and netloc.
Only http and https appear here: every href reaching this check has
already been rejected when a colon survives scheme stripping, so no
other scheme can occur. -/
def is_url (url : String) : Bool :=
  if strStarts url "https://" then takeUntil (fun c => c = '/') (strDrop url 8) ≠ ""
  else if strStarts url "http://" then takeUntil (fun c => c = '/') (strDrop url 7) ≠ ""
  else false

/-- Scheme and network location of an absolute http(s) url, e.g.
https-colon-slash-slash-example.com from https://example.com/a/b. -/
def schemeNetloc (url : String) : String :=
  if strStarts url "https://" then "https://" ++ takeUntil (fun c => c = '/') (strDrop url 8)
  else if strStarts url "http://" then "http://" ++ takeUntil (fun c => c = '/') (strDrop url 7)
  else takeUntil (fun c => c = '/') url

/-- Directory part of the base url (up to and including the last slash
of the path), used by urljoin for hrefs that are relative to the
current page. -/
def urlDir (url : String) : String :=
  let sn := schemeNetloc url
  let path := strDrop url (strLen sn)
  let pathChars := path.data
  match (pathChars.reverse.dropWhile (fun c => c ≠ '/')).reverse with
  | [] => sn ++ "/"
  | l => sn ++ String.mk l

/-- Model of urllib.parse.urljoin restricted to the href shapes the
crawler produces: absolute http(s) urls pass through, hrefs starting
with a slash are joined to the scheme and netloc of the base, and
other hrefs (optionally starting with dot-slash) are joined to the
directory of the base.  Parent-directory segments do not occur here. -/
def urljoin (base href : String) : String :=
  if strStarts href "http://" ∨ strStarts href "https://" then href
  else if href = "" then base
  else if strStarts href "/" then schemeNetloc base ++ href
  else if strStarts href "./" then urlDir base ++ strDrop href 2
  else urlDir base ++ href

/-- Extension part of os.path.splitext: the final dot-suffix of the
last path component, empty when the component has no dot or only
leading dots. -/
def splitextExt (s : String) : String :=
  let name := (splitOnChar '/' s).getLastD ""
  let chars := name.data
  let afterRev := chars.reverse.takeWhile (fun c => c ≠ '.')
  if afterRev.length = chars.length then ""
  else
    let stem := chars.take (chars.length - afterRev.length - 1)
    if stem.any (fun c => c ≠ '.') then String.mk ('.' :: afterRev.reverse)
    else ""

/-! ## Sorting

pandas DataFrame.sort_values is modelled by a comparison sort over the
row list.  pandas uses an unstable quicksort by default; every
property stated below about the sorted output depends only on the key
order it realises, never on the placement of rows whose full sort key
ties, so a concrete stable insertion sort is used. -/

def insertBy (le : α → α → Bool) (a : α) : List α → List α
  | [] => [a]
  | b :: bs => if le a b then a :: b :: bs else b :: insertBy le a bs

def sortBy (le : α → α → Bool) : List α → List α
  | [] => []
  | a :: as => insertBy le a (sortBy le as)

/-! ## Lexicographic string comparison

String.decidableLT does not reduce in the kernel, so the sort key
comparison of pandas sort_values is realised with an explicit
lexicographic comparison over the character lists. -/

def lexCmpChars : List Char → List Char → Ordering
  | [], [] => .eq
  | [], _ :: _ => .lt
  | _ :: _, [] => .gt
  | a :: as, b :: bs =>
    if a.toNat < b.toNat then .lt
    else if b.toNat < a.toNat then .gt
    else lexCmpChars as bs

def strCmp (a b : String) : Ordering := lexCmpChars a.data b.data

/-! ## Association lists

Python dict and collections.Counter are modelled as association
lists with replace-or-append update. -/

def alLookup [DecidableEq κ] (l : List (κ × υ)) (k : κ) : Option υ :=
  match l with
  | [] => none
  | (k', v) :: rest => if k' = k then some v else alLookup rest k

def alUpdate [DecidableEq κ] (l : List (κ × υ)) (k : κ) (v : υ) : List (κ × υ) :=
  match l with
  | [] => [(k, v)]
  | (k', v') :: rest => if k' = k then (k, v) :: rest else (k', v') :: alUpdate rest k v

/-- Model of collections.Counter: missing keys count zero. -/
def counterGet (l : List (String × Nat)) (k : String) : Nat :=
  (alLookup l k).getD 0

/-- Model of Counter.update with a single key (increment by one). -/
def counterIncr (l : List (String × Nat)) (k : String) : List (String × Nat) :=
  alUpdate l k (counterGet l k + 1)

/-! ## RequestUrl (SchemeResolver)

The network is an external collaborator: a probe oracle maps the full
url of a session.head request and its verify flag to the outcome the
requests library would surface.  The three exception groups of
make_contact_with_url (SSLError; the connection-error tuple; the
defensive catch-all) are separate constructors, and a served HTTP
response carries its status code and the final url after redirects. -/

inductive ProbeResult where
  | sslError
  | connError
  | otherError
  | response (status : Nat) (finalUrl : String)
deriving DecidableEq

/-- The probe oracle: full url and verify flag to outcome. -/
abbrev Oracle : Type := String → Bool → ProbeResult

/-- State of a RequestUrl object (the attributes set in init lines
275 to 282 of web_scraping.py; the session object and the unused
tldextract field are not represented). -/
structure RequestUrlState where
  url : Option String
  ssl : Option Bool
  connectionError : Bool
  sslValid : Bool
  statusCode : Option Nat
  verify : Bool
  schema : Option String
deriving DecidableEq

def initialRequestUrlState : RequestUrlState :=
  { url := none, ssl := none, connectionError := false, sslValid := true,
    statusCode := none, verify := true, schema := none }

/-- Source RequestUrl.add_schema_to_url: schema colon-slash-slash, the
url, a trailing slash, with a double trailing slash collapsed. -/
def add_schema_to_url (url schema : String) : String :=
  let full := schema ++ "://" ++ url ++ "/"
  if strEnds full "//" then strTake full (strLen full - 1) else full

/-- Source RequestUrl.make_contact_with_url.  Returns the success flag
together with the updated object state: an SSL failure records an
invalid certificate, a connection-type or unknown failure records a
connection error, and a served response stores the status code and
final url, with success only on status 200. -/
def make_contact_with_url (oracle : Oracle) (st : RequestUrlState)
    (url schema : String) (verify : Bool) : Bool × RequestUrlState :=
  match oracle (add_schema_to_url url schema) verify with
  | .sslError => (false, { st with verify := verify, sslValid := false })
  | .connError => (false, { st with verify := verify, connectionError := true })
  | .otherError => (false, { st with verify := verify, connectionError := true })
  | .response status finalUrl =>
    (decide (status = 200),
      { st with verify := verify, statusCode := some status, url := some finalUrl })

/-- The probe order realised by the two nested loops of
assign_protocol_to_url: schema https then http, verify True then
False, breaking out of both loops at the first success. -/
def probeSeq : List (String × Bool) :=
  [("https", true), ("https", false), ("http", true), ("http", false)]

/-- The flattened double loop of assign_protocol_to_url over a list of
(schema, verify) probes; also returns the probes attempted, in
order. -/
def assignLoop (oracle : Oracle) (cleanUrl : String) :
    RequestUrlState → List (String × Bool) → RequestUrlState × List (String × Bool)
  | st, [] => (st, [])
  | st, (schema, verify) :: rest =>
    let (success, st) := make_contact_with_url oracle st cleanUrl schema verify
    if success then (st, [(schema, verify)])
    else
      let (st, tried) := assignLoop oracle cleanUrl st rest
      (st, (schema, verify) :: tried)

/-- Source RequestUrl.assign_protocol_to_url. -/
def assign_protocol_to_url (oracle : Oracle) (st : RequestUrlState) (url : String) :
    RequestUrlState × List (String × Bool) :=
  assignLoop oracle (strip_url_schema url) st probeSeq

/-- The postlude of RequestUrl init (lines 309 to 315): when a url was
resolved, derive the ssl flag and the schema from it. -/
def requestUrlPostlude (st : RequestUrlState) : RequestUrlState :=
  match st.url with
  | none => st
  | some u =>
    let ssl := strStarts u "https://"
    { st with ssl := some ssl, schema := some (if ssl then "https" else "http") }

/-- RequestUrl init with schema = None: probe for the protocol.  Also
returns the probes attempted. -/
def requestUrlInitNoSchema (oracle : Oracle) (url : String) :
    RequestUrlState × List (String × Bool) :=
  let (st, tried) := assign_protocol_to_url oracle initialRequestUrlState url
  (requestUrlPostlude st, tried)

/-- RequestUrl init with a schema supplied (lines 298 to 307): the url
is built directly from the schema; with validate_url the site is
contacted once with verify equal to the supplied ssl_valid flag,
otherwise the status code is simply set to 200. -/
def requestUrlInitWithSchema (oracle : Oracle) (url schema : String)
    (sslValid : Bool) (validateUrl : Bool) : RequestUrlState :=
  let cleanUrl := strip_url_schema url
  let st := { initialRequestUrlState with
    url := some (add_schema_to_url cleanUrl schema), sslValid := sslValid }
  let st :=
    if validateUrl then (make_contact_with_url oracle st cleanUrl schema sslValid).2
    else { st with statusCode := some 200 }
  requestUrlPostlude st

/-! ## HRefCheck (LinkClassifier) -/

/-- Result of constructing an HRefCheck object: the verdict together
with the classification attributes and the updated shared branch
counter (the Counter object is shared with the crawl, so its update
is threaded through explicitly). -/
structure HRefCheckResult where
  validHref : Bool
  fullHrefUrl : Option String
  cleanHrefUrl : Option String
  relativeLink : Bool
  externalLink : Bool
  branchCount : List (String × Nat)
deriving DecidableEq

/-- Source HRefCheck.is_valid_href, with the shared branch counter
threaded through (the branch-quota check has the side effect of
incrementing the counter of the first path segment).  The re.error
branch of line 202 (the base url failing to compile as a regex) is
not modelled: every base url below is a plain domain.  Returns the
verdict and the updated counter. -/
def is_valid_href (href url : String) (validExtensions : List String)
    (maxDepth : Nat) (maxBranchCount : Option Nat)
    (branchCount : List (String × Nat)) : Bool × List (String × Nat) :=
  -- skip special page references
  if href = "#" ∨ href = "/" ∨ href = "-" then (false, branchCount)
  -- skip hrefs holding a fragment or query character
  else if strHasChar '#' href ∨ strHasChar '?' href then (false, branchCount)
  -- skip extensions outside the allow list (an absent extension is allowed)
  else if splitextExt href ≠ "" ∧ ¬ validExtensions.contains (strLower (splitextExt href)) then
    (false, branchCount)
  -- skip hrefs with a colon outside the scheme (mailto:, tel:, ...)
  else if strHasChar ':' (strip_url_schema href) then (false, branchCount)
  else
    let hrefExt := tldextract href
    let hrefRelToDomain := removeOccurrences (strip_url_schema url) (strip_url_schema href)
    let sections := splitOnChar '/' (trimSlashes hrefRelToDomain)
    let branchDepth := sections.length
    let (rejected, branchCount) :=
      match maxBranchCount with
      | none => (false, branchCount)
      | some maxBC =>
        if branchDepth > 0 then
          let firstBranch := sections.headD ""
          let branchCount := counterIncr branchCount firstBranch
          (counterGet branchCount firstBranch > maxBC, branchCount)
        else (false, branchCount)
    if rejected then (false, branchCount)
    else
      -- for links within the domain, check the depth bound
      let urlExt := tldextract url
      if strip_url_schema hrefExt.domain = "" ∨
          strip_url_schema hrefExt.domain = strip_url_schema urlExt.domain then
        let branchDepth := if strEnds hrefRelToDomain ".html" then branchDepth - 1 else branchDepth
        if branchDepth > maxDepth then (false, branchCount)
        else (true, branchCount)
      else (true, branchCount)

/-- Source HRefCheck.get_full_url: hrefs starting with a slash or
dot-slash, hrefs whose extracted domain is the literal html, and
strings that do not parse as absolute urls are joined to the base as
root-relative links; everything else is treated as a standalone
absolute url and resolved through RequestUrl, marked external when its
extracted domain differs from the domain of the base.  The urljoin
ValueError branch is not modelled (the joins occurring here are
total). -/
def hrefCheckGetFullUrl (oracle : Oracle) (href url : String)
    (schema : String) (sslValid : Bool) (validateUrl : Bool)
    (branchCount : List (String × Nat)) : HRefCheckResult :=
  let hrefExtract := tldextract href
  if strStarts href "/" ∨ strStarts href "./" ∨ hrefExtract.domain = "html" ∨ ¬ is_url href then
    { validHref := true, fullHrefUrl := some (urljoin url href), cleanHrefUrl := none,
      relativeLink := true, externalLink := false, branchCount := branchCount }
  else
    let req := requestUrlInitWithSchema oracle href schema sslValid validateUrl
    let fullHrefUrl := req.url
    match get_clean_url fullHrefUrl with
    | none =>
      -- TypeError from tldextract on None: the link is marked invalid
      { validHref := false, fullHrefUrl := fullHrefUrl, cleanHrefUrl := none,
        relativeLink := false, externalLink := false, branchCount := branchCount }
    | some cleanHrefUrl =>
      let externalLink := hrefExtract.domain ≠ (tldextract url).domain
      { validHref := true, fullHrefUrl := fullHrefUrl, cleanHrefUrl := some cleanHrefUrl,
        relativeLink := false, externalLink := externalLink, branchCount := branchCount }

/-- Construction of an HRefCheck object: run is_valid_href, and on a
valid verdict resolve the full url. -/
def hrefCheckInit (oracle : Oracle) (href url : String) (validExtensions : List String)
    (maxDepth : Nat) (maxBranchCount : Option Nat)
    (branchCount : List (String × Nat))
    (schema : String) (sslValid : Bool) (validateUrl : Bool) : HRefCheckResult :=
  let (valid, branchCount) :=
    is_valid_href href url validExtensions maxDepth maxBranchCount branchCount
  if valid then
    hrefCheckGetFullUrl oracle href url schema sslValid validateUrl branchCount
  else
    { validHref := false, fullHrefUrl := none, cleanHrefUrl := none,
      relativeLink := false, externalLink := false, branchCount := branchCount }

/-! ## UrlSearchStrings (Crawler)

A parsed page (the BeautifulSoup collaborator) is modelled by its
text nodes, frame src values and hyperlink href values.  The site is a
finite map from url to page; a lookup failure stands for every way
make_soup can fail to produce a soup (transport exception, non-200
status, missing or invalid schema).  A compiled search pattern is
modelled as a function from a string to the list of its matches in
order (re.finditer); soup.find_all with a string pattern keeps exactly
the nodes on which the pattern has at least one match. -/

structure Page where
  textNodes : List String
  frames : List String
  links : List String

abbrev Site : Type := List (String × Page)

def fetchPage (site : Site) (url : String) : Option Page := alLookup site url

/-- Python str.strip(): whitespace removed from both ends. -/
def pyStrip (s : String) : String :=
  String.mk (((s.data.dropWhile Char.isWhitespace).reverse.dropWhile Char.isWhitespace).reverse)

/-- Source UrlSearchStrings.get_patterns: for every text node the
pattern matches at all, every match on it, stripped, in order. -/
def get_patterns (textNodes : List String) (matcher : String → List String) : List String :=
  ((textNodes.filter (fun n => ¬ (matcher n).isEmpty)).map
    (fun n => (matcher n).map pyStrip)).flatten

/-- Row of the href DataFrame built by make_href_df (columns HREF_KEY,
URL_KEY, EXTERNAL_KEY, RELATIVE_KEY, RANKING_KEY, CLICKS_KEY; the
column-name constants come from the global_vars module, which is not
part of the sources here, but only the shape of the table matters). -/
structure HrefRow where
  href : String
  url : String
  external : Bool
  relative : Bool
  ranking : Nat
  clicks : Nat
deriving DecidableEq

/-- Boolean order on Bool with false before true, the order pandas
uses when sorting a boolean column ascending. -/
def boolLe (a b : Bool) : Bool := !a || b

/-- Sort key of href_df.sort_values([URL_KEY, RELATIVE_KEY]): resolved
url first, then the relative flag. -/
def rowLeUrlRel (a b : HrefRow) : Bool :=
  match strCmp a.url b.url with
  | .lt => true
  | .gt => false
  | .eq => boolLe a.relative b.relative

/-- Sort key of href_df.sort_values([RANKING_KEY], ascending=False). -/
def rowGeRank (a b : HrefRow) : Bool := decide (b.ranking ≤ a.ranking)

/-- pandas drop_duplicates([URL_KEY], keep="last"): a row survives
exactly when no later row carries the same resolved url, and the
surviving rows keep their relative order. -/
def dropDupKeepLastUrl : List HrefRow → List HrefRow
  | [] => []
  | r :: rest =>
    if rest.any (fun s => s.url == r.url) then dropDupKeepLastUrl rest
    else r :: dropDupKeepLastUrl rest

/-- Lines 708 to 712 of make_href_df: sort by (url, relative flag),
drop duplicate urls keeping the last, then re-sort on the ranking
descending. -/
def sortAndDedup (rows : List HrefRow) : List HrefRow :=
  sortBy rowGeRank (dropDupKeepLastUrl (sortBy rowLeUrlRel rows))

/-- Configuration of one UrlSearchStrings crawl after scheme
resolution: the compiled searches, the caller options, the budget
attributes stored by init, and the collaborators (site and probe
oracle).  maxDepth and maxBranchCount are the stored constructor
arguments self.max_depth and self.max_branch_count; the source stores
them (lines 533 to 534) but never passes them on to HRefCheck, which
is what claims C1 and C2 are about. -/
structure CrawlConfig where
  searchRegexp : List (String × (String → List String))
  sortOrderHrefs : Option (List (String → Bool))
  stopSearchOnFoundKeys : Option (List String)
  maxFrames : Nat
  maxHrefs : Nat
  maxDepth : Nat
  maxBranchCount : Nat
  schema : String
  sslValid : Bool
  validateUrl : Bool
  baseUrl : String
  site : Site
  oracle : Oracle

/-- Mutable attributes of a UrlSearchStrings object during the
recursive search. -/
structure CrawlState where
  -- the matches attribute of the source (matches is a Lean keyword)
  foundMatches : List (String × List String)
  urlPerMatch : List (String × List (String × String))
  externalHrefs : List String
  followedUrls : List String
  frameCounter : Nat
  hrefCounter : Nat
  branchCount : List (String × Nat)
  hrefDf : Option (List HrefRow)
  stopScanning : Bool
  siteExists : Bool

/-- The attribute state right after init (matches and url_per_match
carry an empty entry per search key; counters at zero; no href table;
the stop flag down). -/
def initState (cfg : CrawlConfig) : CrawlState :=
  { foundMatches := cfg.searchRegexp.map (fun km => (km.1, []))
    urlPerMatch := cfg.searchRegexp.map (fun km => (km.1, []))
    externalHrefs := []
    followedUrls := []
    frameCounter := 0
    hrefCounter := 0
    branchCount := []
    hrefDf := none
    stopScanning := false
    siteExists := false }

/-- One search key processed on one page (lines 604 to 614 of
recursive_pattern_search): a nonempty result list extends the match
list of the key and records the current url for each match in the
side table. -/
def searchOneKey (url : String) (textNodes : List String) (st : CrawlState)
    (km : String × (String → List String)) : CrawlState :=
  let result := get_patterns textNodes km.2
  if result.isEmpty then st
  else
    let st := { st with
      foundMatches :=
        alUpdate st.foundMatches km.1 (((alLookup st.foundMatches km.1).getD []) ++ result) }
    { st with
      urlPerMatch := alUpdate st.urlPerMatch km.1
        (result.foldl (fun inner m => alUpdate inner m url)
          ((alLookup st.urlPerMatch km.1).getD [])) }

/-- All searches of the search_strings dictionary run on one page. -/
def pageSearch (cfg : CrawlConfig) (st : CrawlState) (url : String)
    (textNodes : List String) : CrawlState :=
  cfg.searchRegexp.foldl (searchOneKey url textNodes) st

/-- Ranking of an href against the optional sort_order_hrefs list of
case-insensitive patterns (each pattern modelled as a predicate of
the regex collaborator): one point when any pattern matches. -/
def hrefRanking (sortOrder : Option (List (String → Bool))) (href : String) : Nat :=
  match sortOrder with
  | none => 0
  | some pats => if pats.any (fun p => p href) then 1 else 0

/-- The per-link loop of make_href_df (lines 646 to 700), threading
the accumulated valid href and url lists, the produced rows, the
shared branch counter and the external href list.  The HRefCheck
construction at lines 667 to 669 passes neither max_depth nor
max_branch_count nor valid_extensions, so the HRefCheck defaults
([.html], max_depth 1, max_branch_count 50) apply no matter how the
crawl was configured. -/
def makeHrefRows (cfg : CrawlConfig) :
    List String → List String → List String → List HrefRow →
    List (String × Nat) → List String →
    List HrefRow × List (String × Nat) × List String
  | [], _, _, rows, bc, ext => (rows, bc, ext)
  | href :: restLinks, validHrefs, validUrls, rows, bc, ext =>
    let cleanHref := (get_clean_url (some href)).getD ""
    if cleanHref ∈ ext then
      makeHrefRows cfg restLinks validHrefs validUrls rows bc ext
    else if href ∈ validHrefs ∨ href ∈ validUrls then
      makeHrefRows cfg restLinks validHrefs validUrls rows bc ext
    else
      let check := hrefCheckInit cfg.oracle href cfg.baseUrl [".html"] 1 (some 50) bc
        cfg.schema cfg.sslValid cfg.validateUrl
      let bc := check.branchCount
      if check.validHref then
        let url := check.fullHrefUrl.getD ""
        let cleanHrefUrl := check.cleanHrefUrl.getD ""
        let ext :=
          if check.externalLink ∧ cleanHrefUrl ∉ ext then ext ++ [cleanHrefUrl] else ext
        let row : HrefRow :=
          { href := href, url := url, external := check.externalLink,
            relative := check.relativeLink,
            ranking := hrefRanking cfg.sortOrderHrefs href, clicks := 0 }
        makeHrefRows cfg restLinks (validHrefs ++ [href]) (validUrls ++ [url])
          (rows ++ [row]) bc ext
      else
        makeHrefRows cfg restLinks validHrefs validUrls rows bc ext

/-- Source UrlSearchStrings.make_href_df: build the classified rows
from the links of the page, then sort and deduplicate them, and store
the table on the crawl object. -/
def make_href_df (cfg : CrawlConfig) (st : CrawlState) (links : List String) : CrawlState :=
  let (rows, bc, ext) := makeHrefRows cfg links [] [] [] st.branchCount st.externalHrefs
  { st with branchCount := bc, externalHrefs := ext, hrefDf := some (sortAndDedup rows) }

/-- Lines 736 to 742 of follow_hrefs: every external row url not yet
recorded is appended to the external href list. -/
def storeExternalRefs (st : CrawlState) (rows : List HrefRow) : CrawlState :=
  let ext := (rows.filter (fun r => r.external)).foldl
    (fun acc r => if r.url ∈ acc then acc else acc ++ [r.url]) st.externalHrefs
  { st with externalHrefs := ext }

/-- The stop-key scan of lines 771 to 777: some stop key has at least
one match. -/
def stopKeyFound (cfg : CrawlConfig) (st : CrawlState) : Bool :=
  match cfg.stopSearchOnFoundKeys with
  | none => false
  | some keys => keys.any (fun k => ¬ ((alLookup st.foundMatches k).getD []).isEmpty)

/-- Events recorded by the embedded crawl: a page visit (the recursion
proceeding past the stop guard, with the follow_hrefs_to_next_page
flag of the call, so visits with the flag down are exactly the pages
reached by following a hyperlink of the href table); a frame recursion
together with the frame counter value that admitted it; and the
transition of the stop flag from down to up. -/
inductive Event where
  | visit (url : String) (followHrefsToNextPage : Bool)
  | frameRecurse (url : String) (counter : Nat)
  | stopSet
deriving DecidableEq

/-- Lines 769 to 781 of follow_hrefs, after the possible visit of one
row: the stop-key check runs, the stop flag is raised when some stop
key has a match, and the loop either breaks (flag up) or continues
through the continuation (the loop over the remaining rows).  The
stopSet event is emitted exactly when the flag transitions from down
to up. -/
def hrefStopCheck (cfg : CrawlConfig) (st3 : CrawlState) (evs3 : List Event)
    (cont : CrawlState → CrawlState × List Event) : CrawlState × List Event :=
  let stopHit := stopKeyFound cfg st3
  let fired := stopHit && ! st3.stopScanning
  let st4 := if stopHit then { st3 with stopScanning := true } else st3
  let evs4 := evs3 ++ (if fired then [Event.stopSet] else [])
  if st4.stopScanning then (st4, evs4)
  else
    let (st5, evs5) := cont st4
    (st5, evs4 ++ evs5)

/-- The four recursive procedures of the crawl as one fuel-indexed
step function.  Constructors of Call: patternSearch is
recursive_pattern_search; frameLoop is the for-loop of follow_frames
over the frame src values (note the source reassigns url each
iteration, so each src joins against the previous frame url);
hrefsEntry is the head of follow_hrefs (build href_df once, store the
external refs); hrefLoop is the row loop of follow_hrefs.  Every
recursive call spends one unit of fuel; all the properties proved
below hold for every fuel value, and the concrete runs use enough
fuel for the recursion to complete. -/
inductive Call where
  | patternSearch (url : String) (followHrefsToNextPage : Bool)
  | frameLoop (url : String) (srcs : List String)
  | hrefsEntry (links : List String)
  | hrefLoop (rows : List HrefRow)

def crawlStep (cfg : CrawlConfig) : Nat → Call → CrawlState → CrawlState × List Event
  | 0, _, st => (st, [])
  | fuel + 1, Call.patternSearch url follow, st =>
    -- line 591: the stop guard at the head of recursive_pattern_search
    if st.stopScanning then (st, [])
    else
      match fetchPage cfg.site url with
      | none => (st, [Event.visit url follow])
      | some page =>
        -- make_soup succeeded: line 838 raises the exists flag
        let st1 := { st with siteExists := true }
        let st2 := pageSearch cfg st1 url page.textNodes
        -- follow_frames: the counter rises once per page holding frames
        let (st3, evFrames) :=
          if page.frames.isEmpty then (st2, [])
          else crawlStep cfg fuel (Call.frameLoop url page.frames)
            { st2 with frameCounter := st2.frameCounter + 1 }
        if follow then
          let (st4, evHrefs) := crawlStep cfg fuel (Call.hrefsEntry page.links) st3
          (st4, Event.visit url follow :: (evFrames ++ evHrefs))
        else (st3, Event.visit url follow :: evFrames)
  | fuel + 1, Call.frameLoop url srcs, st =>
    match srcs with
    | [] => (st, [])
    | src :: rest =>
      let u := urljoin url src
      let (st1, evs1) :=
        if st.frameCounter ≤ cfg.maxFrames then
          let (st1, evs1) := crawlStep cfg fuel (Call.patternSearch u true) st
          (st1, Event.frameRecurse u st.frameCounter :: evs1)
        else (st, [])
      let (st2, evs2) := crawlStep cfg fuel (Call.frameLoop u rest) st1
      (st2, evs1 ++ evs2)
  | fuel + 1, Call.hrefsEntry links, st =>
    let st1 := if st.hrefDf.isNone then make_href_df cfg st links else st
    let rows := st1.hrefDf.getD []
    let st2 := storeExternalRefs st1 rows
    crawlStep cfg fuel (Call.hrefLoop rows) st2
  | fuel + 1, Call.hrefLoop rows, st =>
    match rows with
    | [] => (st, [])
    | row :: rest =>
      let st1 := { st with hrefCounter := st.hrefCounter + 1 }
      if row.url ∈ st1.externalHrefs then crawlStep cfg fuel (Call.hrefLoop rest) st1
      else if row.url ∈ st1.followedUrls then crawlStep cfg fuel (Call.hrefLoop rest) st1
      else
        let st2 := { st1 with followedUrls := st1.followedUrls ++ [row.url] }
        let (st3, evs3) :=
          if st2.hrefCounter ≤ cfg.maxHrefs then
            crawlStep cfg fuel (Call.patternSearch row.url false) st2
          else (st2, [])
        hrefStopCheck cfg st3 evs3 (fun s => crawlStep cfg fuel (Call.hrefLoop rest) s)

/-- Source UrlSearchStrings.recursive_pattern_search. -/
def recursive_pattern_search (cfg : CrawlConfig) (fuel : Nat) (st : CrawlState)
    (url : String) (followHrefsToNextPage : Bool) : CrawlState × List Event :=
  crawlStep cfg fuel (Call.patternSearch url followHrefsToNextPage) st

/-- The full crawl phase started at line 572 of init: the recursive
search from the resolved base url with href following enabled. -/
def runCrawl (cfg : CrawlConfig) (fuel : Nat) : CrawlState × List Event :=
  recursive_pattern_search cfg fuel (initState cfg) cfg.baseUrl true

/-- Urls of the pages visited by following a hyperlink of the href
table (the visits performed with follow_hrefs_to_next_page False). -/
def hrefVisits (evts : List Event) : List String :=
  evts.filterMap (fun e =>
    match e with
    | Event.visit u false => some u
    | _ => none)

/-- Number of visit events of either kind. -/
def countVisits (evts : List Event) : Nat :=
  (evts.filter (fun e =>
    match e with
    | Event.visit _ _ => true
    | _ => false)).length

/-- Number of frame recursions. -/
def countFrameRecurse (evts : List Event) : Nat :=
  (evts.filter (fun e =>
    match e with
    | Event.frameRecurse _ _ => true
    | _ => false)).length

/-- Whether a stopSet event occurs. -/
def hasStopSet (evts : List Event) : Bool :=
  evts.any (fun e =>
    match e with
    | Event.stopSet => true
    | _ => false)

/-- Number of page visits occurring strictly after the first stopSet
event of the trace. -/
def visitsAfterStopSet : List Event → Nat
  | [] => 0
  | Event.stopSet :: rest => countVisits rest
  | _ :: rest => visitsAfterStopSet rest

/-! ## cache_to_disk (DiskCache)

The file system is a finite map from path to cache file, where a file
carries its byte size (for get_dir_size) and the outcome pickle.load
would produce on it: a value, an EOFError (truncated file), an OSError
(I/O failure on open or read), or an UnpicklingError (corrupt blob).
A missing path stands for FileNotFoundError.  The source wrapper
catches exactly (FileNotFoundError, OSError, EOFError) on the read
path, so an UnpicklingError outcome is not caught and propagates,
which the embedding records as a raising result.  Write failures
(logged, not raised, in the source) are not modelled: the store
operation is total. -/

inductive LoadOutcome (α : Type) where
  | ok (v : α)
  | eofError
  | osError
  | unpicklingError
deriving DecidableEq

structure CacheFile (α : Type) where
  size : Nat
  content : LoadOutcome α
deriving DecidableEq

abbrev CacheFs (α : Type) : Type := List (String × CacheFile α)

/-- True when path names a file directly inside the directory, the
files Path(dir).iterdir() yields. -/
def isDirectFileOf (dir path : String) : Bool :=
  strStarts path (dir ++ "/") ∧ ¬ strHasChar '/' (strDrop path (strLen dir + 1))

/-- Source get_dir_size (misc.py line 1883): the sum of the sizes of
the files directly inside the directory, in bytes. -/
def get_dir_size (fs : CacheFs α) (dir : String) : Nat :=
  ((fs.filter (fun e => isDirectFileOf dir e.1)).map (fun e => e.2.size)).sum

/-- Collapse of every run of underscores to a single underscore,
re.sub of one-or-more underscores with one underscore. -/
def collapseUnderscores : List Char → List Char
  | [] => []
  | [c] => [c]
  | c :: d :: rest =>
    if c = '_' ∧ d = '_' then collapseUnderscores (d :: rest)
    else c :: collapseUnderscores (d :: rest)

/-- Source make_cache_file_name.  The format call renders the
function name followed by the Python repr of the argument tuple; that
rendering is the argsRendered input here (string formatting of the
runtime is outside the embedding).  Then every slash becomes an
underscore, every character of the special class (quotes, parentheses,
colon, comma, dot, ampersand, percent, hash, dollar, semicolon,
whitespace) becomes an underscore, runs of underscores collapse, and
the pkl suffix is appended. -/
def make_cache_file_name (functionName argsRendered : String) : String :=
  let s := (functionName ++ argsRendered).data
  let s := s.map (fun c => if c = '/' then '_' else c)
  let s := s.map (fun c =>
    if c = '"' ∨ c = '\'' ∨ c = '(' ∨ c = ')' ∨ c = ':' ∨ c = ',' ∨ c = '.' ∨
        c = '&' ∨ c = '%' ∨ c = '#' ∨ c = '$' ∨ c = ';' ∨ c.isWhitespace
    then '_' else c)
  String.mk (collapseUnderscores s) ++ ".pkl"

/-- Outcome of the open-and-pickle.load attempt at a path: none is
FileNotFoundError, otherwise the load outcome of the stored file. -/
def loadAt (fs : CacheFs α) (path : String) : Option (LoadOutcome α) :=
  (alLookup fs path).map (fun f => f.content)

/-- Store (open for writing plus pickle.dump). -/
def fsStore (fs : CacheFs α) (path : String) (f : CacheFile α) : CacheFs α :=
  alUpdate fs path f

/-- What the wrapper call produces: a value, or an uncaught exception
raised out of pickle.load on a corrupt blob. -/
inductive WrapperResult (α : Type) where
  | ok (v : α)
  | raisedUnpickling
deriving DecidableEq

/-- Read failures the except clause of the source catches:
FileNotFoundError (none), OSError, EOFError. -/
def readMissCaught (r : Option (LoadOutcome α)) : Bool :=
  match r with
  | none => true
  | some (LoadOutcome.eofError) => true
  | some (LoadOutcome.osError) => true
  | _ => false

/-- Lines 976 to 984 of the wrapper: whether writing new cache is
suppressed.  A budget of exactly zero always suppresses; a nonzero
budget suppresses when the current directory size already meets or
exceeds it; no budget never suppresses. -/
def skip_write_new_cache (maxCacheDirSize : Option Nat) (dirSize : Nat) : Bool :=
  match maxCacheDirSize with
  | none => false
  | some m => if m = 0 then true else decide (dirSize ≥ m)

/-- One call through the cache_to_disk wrapper.  Inputs: the file
system, the wrapped function name and rendered argument tuple, the
skip_cache and max_cache_dir_size and cache_directory keyword
arguments, the value the wrapped function would compute on this call
(fres), and the size the dumped blob would have.  Output: the result
surfaced to the caller, the file system afterwards, and whether the
wrapped function was invoked. -/
def cache_to_disk (fs : CacheFs α) (funcName argsRendered : String)
    (skipCache : Bool) (maxCacheDirSize : Option Nat) (cacheDirectory : String)
    (fres : α) (writeSize : Nat) : WrapperResult α × CacheFs α × Bool :=
  if skipCache then (WrapperResult.ok fres, fs, true)
  else
    let cacheFile := make_cache_file_name funcName argsRendered
    let cache := cacheDirectory ++ "/" ++ cacheFile
    -- make_directory touches no file, so the file map is unchanged
    let skipWrite := skip_write_new_cache maxCacheDirSize (get_dir_size fs cacheDirectory)
    match loadAt fs cache with
    | some (LoadOutcome.ok v) => (WrapperResult.ok v, fs, false)
    | some LoadOutcome.unpicklingError =>
      -- pickle.UnpicklingError is not in the except tuple: it raises
      (WrapperResult.raisedUnpickling, fs, false)
    | some LoadOutcome.eofError | some LoadOutcome.osError | none =>
      let result := fres
      let fs := if skipWrite then fs else fsStore fs cache ⟨writeSize, LoadOutcome.ok result⟩
      (WrapperResult.ok result, fs, true)

/-! ## Concrete inputs used by the claim theorems -/

/-- An oracle on which every probe fails with a connection error; used
by the crawls below whose hrefs are all relative, so that no probe is
ever consulted. -/
def noProbeOracle : Oracle := fun _ _ => ProbeResult.connError

/-- A crawl configuration over the domain example.com with empty
searches and the init defaults of UrlSearchStrings except where a
claim sets its own value. -/
def baseCfg : CrawlConfig :=
  { searchRegexp := []
    sortOrderHrefs := none
    stopSearchOnFoundKeys := none
    maxFrames := 10
    maxHrefs := 1000
    maxDepth := 2
    maxBranchCount := 10
    schema := "https"
    sslValid := true
    validateUrl := true
    baseUrl := "https://example.com/"
    site := []
    oracle := noProbeOracle }

/-- Claim C1 input: a crawl constructed with max_depth = 0 over a seed
page holding the single internal href /a (branch depth 1, no html
reduction), with the target page present. -/
def cfgC1 : CrawlConfig := { baseCfg with
  maxDepth := 0
  site := [("https://example.com/", ⟨[], [], ["/a"]⟩),
           ("https://example.com/a", ⟨[], [], []⟩)] }

/-- Claim C2 input: a crawl constructed with max_branch_count = 2 over
a seed page holding three distinct internal hrefs whose first path
segment is the branch b (each of effective depth 1 thanks to the html
leaf reduction, so the depth check passes). -/
def cfgC2 : CrawlConfig := { baseCfg with
  maxBranchCount := 2
  site := [("https://example.com/", ⟨[], [], ["/b/1.html", "/b/2.html", "/b/3.html"]⟩),
           ("https://example.com/b/1.html", ⟨[], [], []⟩),
           ("https://example.com/b/2.html", ⟨[], [], []⟩),
           ("https://example.com/b/3.html", ⟨[], [], []⟩)] }

/-- A compiled pattern matching exactly the text node hello (the regex
collaborator modelled as its match function). -/
def matchHello : String → List String := fun s => if s = "hello" then ["hello"] else []

/-- Claim C3 input: search key A is a stop key and matches on the seed
page itself; the seed carries two followable hyperlinks whose pages
match nothing. -/
def cfgC3 : CrawlConfig := { baseCfg with
  searchRegexp := [("A", matchHello)]
  stopSearchOnFoundKeys := some ["A"]
  site := [("https://example.com/", ⟨["hello"], [], ["/p1.html", "/p2.html"]⟩),
           ("https://example.com/p1.html", ⟨[], [], []⟩),
           ("https://example.com/p2.html", ⟨[], [], []⟩)] }

/-- Claim C4 oracle: the head request the absolute href form triggers
is answered 200 with the final url https://example.com/a (no trailing
slash), so the absolute and the relative record resolve to the same
url. -/
def oracleC4 : Oracle := fun full _ =>
  if full = "https://example.com/a/" then ProbeResult.response 200 "https://example.com/a"
  else ProbeResult.connError

def cfgC4 : CrawlConfig := { baseCfg with oracle := oracleC4 }

/-- Claim C4 input links: the non-relative and the relative form of
the same resolved url, as found on a seed page. -/
def linksC4 : List String := ["https://example.com/a", "/a"]

/-- Claim C5 input: a crawl constructed with max_frames = 1 over a
seed page holding two frames. -/
def cfgC5 : CrawlConfig := { baseCfg with
  maxFrames := 1
  site := [("https://example.com/", ⟨[], ["f1.html", "f2.html"], []⟩),
           ("https://example.com/f1.html", ⟨[], [], []⟩),
           ("https://example.com/f2.html", ⟨[], [], []⟩)] }

/-! ## Claim theorems: C1 and C2 (budget parameters never forwarded) -/

/-- Whether every frame recursion of a trace was admitted with the
frame counter at most the budget (the counter value recorded in the
event is the one the guard of line 804 inspected). -/
def framesOk (maxF : Nat) (evts : List Event) : Bool :=
  evts.all (fun e =>
    match e with
    | Event.frameRecurse _ c => decide (c ≤ maxF)
    | _ => true)

/-! ## Claim C3 amended: once the stop flag is up, nothing more is
visited.

The invariant relates the stop flag on entry, the emitted events and
the stop flag on exit: with the flag already up nothing is visited and
no stopSet is emitted; a stopSet event in the trace leaves the flag up
on exit; and no visit of any kind occurs after the first stopSet. -/

def stopOk (stopIn : Bool) (evts : List Event) (stopOut : Bool) : Prop :=
  (stopIn = true → countVisits evts = 0 ∧ hasStopSet evts = false ∧ stopOut = true) ∧
  (hasStopSet evts = true → stopOut = true) ∧
  visitsAfterStopSet evts = 0

/-- Claim C4 witness rows: a non-relative and a relative record with
the same resolved url. -/
def rNonC4 : HrefRow :=
  { href := "https://example.com/a", url := "https://example.com/a", external := false,
    relative := false, ranking := 0, clicks := 0 }

def rRelC4 : HrefRow :=
  { href := "/a", url := "https://example.com/a", external := false,
    relative := true, ranking := 0, clicks := 0 }

/-- Whether a probe of the fixed order would succeed: the oracle serves
an HTTP 200 response on the full url the probe builds. -/
def probeSucceeds (oracle : Oracle) (cleanUrl : String) (p : String × Bool) : Bool :=
  match oracle (add_schema_to_url cleanUrl p.1) p.2 with
  | ProbeResult.response status _ => decide (status = 200)
  | _ => false

/-- Claim C6 witness oracle: a target serving 200 on both schemes. -/
def oracleC6 : Oracle := fun full _ =>
  if full = "https://example.com/" then ProbeResult.response 200 "https://example.com/"
  else if full = "http://example.com/" then ProbeResult.response 200 "http://example.com/"
  else ProbeResult.connError

/-- Whether a probe outcome is one of the exception paths of
make_contact_with_url (SSL error, connection-type error, or the
defensive catch-all), as opposed to a served HTTP response. -/
def isExceptionResult (r : ProbeResult) : Bool :=
  match r with
  | ProbeResult.response _ _ => false
  | _ => true

/-- An oracle on which every combination connects but is answered 404:
every combination fails (no probe succeeds), yet the url and status
code attributes are populated by the served response. -/
def oracleAll404 : Oracle := fun _ _ => ProbeResult.response 404 "http://example.com/"

/-- The match list of a search key (Python self.matches[key]). -/
def matchesOf (st : CrawlState) (k : String) : List String :=
  (alLookup st.foundMatches k).getD []

/-- The side-table entry of a key and a match string (Python
self.url_per_match[key][match]). -/
def urlOfMatch (st : CrawlState) (k m : String) : Option String :=
  alLookup ((alLookup st.urlPerMatch k).getD []) m

/-- The per-page search step applied along a sequence of visited pages
(each page given by its url and its text nodes), exactly as
recursive_pattern_search performs it on each page of a crawl in visit
order. -/
def visitPages (cfg : CrawlConfig) (st : CrawlState)
    (ps : List (String × List String)) : CrawlState :=
  ps.foldl (fun s p => pageSearch cfg s p.1 p.2) st

/-- The url of the last page of the sequence on which the (stripped)
match string occurs. -/
def lastUrlWith (matcher : String → List String) (m : String)
    (ps : List (String × List String)) : Option String :=
  ((ps.filter (fun p => m ∈ get_patterns p.2 matcher)).getLast?).map Prod.fst

/-- A compiled pattern whose single match on the matching text node
carries surrounding whitespace, so that the strip step of get_patterns
is visible in the witness. -/
def matchPostcode : String → List String :=
  fun s => if s = "postcode 1234 AB" then [" 1234 AB "] else []

/-- Claim C10 witness configuration: a single search key P bound to
the postcode pattern. -/
def cfgC10 : CrawlConfig := { baseCfg with
  searchRegexp := [("P", matchPostcode)] }

/-- Claim C10 witness page sequence: the same stripped match 1234 AB
occurs on both visited pages. -/
def pagesC10 : List (String × List String) :=
  [("https://example.com/", ["postcode 1234 AB"]),
   ("https://example.com/contact", ["postcode 1234 AB"])]

theorem insertBy_perm (le : α → α → Bool) (a : α) (l : List α) :
    List.Perm (insertBy le a l) (a :: l) := by
  induction l with
  | nil => simp [insertBy]
  | cons b bs ih =>
    simp only [insertBy]
    by_cases h : le a b = true
    · simp [h]
    · simp only [h]
      exact List.Perm.trans (List.Perm.cons b ih) (List.Perm.swap a b bs)

theorem sortBy_perm (le : α → α → Bool) (l : List α) :
    List.Perm (sortBy le l) l := by
  induction l with
  | nil => simp [sortBy]
  | cons a as ih =>
    exact List.Perm.trans (insertBy_perm le a (sortBy le as)) (List.Perm.cons a ih)

theorem pairwise_insertBy (le : α → α → Bool)
    (htrans : ∀ x y z, le x y = true → le y z = true → le x z = true)
    (htot : ∀ x y, le x y = true ∨ le y x = true)
    (a : α) (l : List α) (hl : l.Pairwise (fun x y => le x y = true)) :
    (insertBy le a l).Pairwise (fun x y => le x y = true) := by
  induction l with
  | nil => simp [insertBy]
  | cons b bs ih =>
    rw [List.pairwise_cons] at hl
    obtain ⟨hb, hbs⟩ := hl
    by_cases h : le a b = true
    · simp only [insertBy, h, if_true]
      rw [List.pairwise_cons]
      refine ⟨?_, ?_⟩
      · intro x hx
        rcases List.mem_cons.mp hx with hx | hx
        · exact hx ▸ h
        · exact htrans a b x h (hb x hx)
      · rw [List.pairwise_cons]
        exact ⟨hb, hbs⟩
    · have hba : le b a = true := (htot a b).resolve_left h
      simp only [insertBy, h, Bool.false_eq_true, if_false]
      rw [List.pairwise_cons]
      refine ⟨?_, ih hbs⟩
      intro x hx
      rcases List.mem_cons.mp ((insertBy_perm le a bs).mem_iff.mp hx) with hx2 | hx2
      · exact hx2 ▸ hba
      · exact hb x hx2

theorem pairwise_sortBy (le : α → α → Bool)
    (htrans : ∀ x y z, le x y = true → le y z = true → le x z = true)
    (htot : ∀ x y, le x y = true ∨ le y x = true)
    (l : List α) :
    (sortBy le l).Pairwise (fun x y => le x y = true) := by
  induction l with
  | nil => simp [sortBy]
  | cons a as ih => exact pairwise_insertBy le htrans htot a (sortBy le as) ih

theorem char_toNat_inj {a b : Char} (h : a.toNat = b.toNat) : a = b := by
  have ha := Char.ofNat_toNat a
  have hb := Char.ofNat_toNat b
  rw [← ha, ← hb, h]

theorem lexCmpChars_self (l : List Char) : lexCmpChars l l = .eq := by
  induction l with
  | nil => rfl
  | cons a as ih => simp [lexCmpChars, ih]

theorem lexCmpChars_eq_iff {l m : List Char} : lexCmpChars l m = .eq ↔ l = m := by
  constructor
  · intro h
    induction l generalizing m with
    | nil => cases m with
      | nil => rfl
      | cons b bs => simp [lexCmpChars] at h
    | cons a as ih =>
      cases m with
      | nil => simp [lexCmpChars] at h
      | cons b bs =>
        simp only [lexCmpChars] at h
        by_cases h1 : a.toNat < b.toNat
        · simp [h1] at h
        · by_cases h2 : b.toNat < a.toNat
          · simp [h1, h2] at h
          · have hab : a = b := char_toNat_inj (by omega)
            simp only [h1, if_false, h2] at h
            rw [hab, ih h]
  · intro h; rw [h]; exact lexCmpChars_self m

theorem lexCmpChars_swap (l m : List Char) :
    lexCmpChars l m = .lt ↔ lexCmpChars m l = .gt := by
  induction l generalizing m with
  | nil => cases m <;> simp [lexCmpChars]
  | cons a as ih =>
    cases m with
    | nil => simp [lexCmpChars]
    | cons b bs =>
      simp only [lexCmpChars]
      by_cases h1 : a.toNat < b.toNat
      · have h2 : ¬ b.toNat < a.toNat := by omega
        simp [h1, h2]
      · by_cases h2 : b.toNat < a.toNat
        · simp [h1, h2]
        · simp only [h1, if_false, h2, ite_false]
          exact ih bs

theorem lexCmpChars_trans_lt {l m n : List Char}
    (h1 : lexCmpChars l m = .lt) (h2 : lexCmpChars m n = .lt) :
    lexCmpChars l n = .lt := by
  induction l generalizing m n with
  | nil =>
    cases m with
    | nil => simp [lexCmpChars] at h1
    | cons b bs =>
      cases n with
      | nil => simp [lexCmpChars] at h2
      | cons c cs => simp [lexCmpChars]
  | cons a as ih =>
    cases m with
    | nil => simp [lexCmpChars] at h1
    | cons b bs =>
      cases n with
      | nil => simp [lexCmpChars] at h2
      | cons c cs =>
        simp only [lexCmpChars] at h1 h2 ⊢
        by_cases hab : a.toNat < b.toNat
        · by_cases hbc : b.toNat < c.toNat
          · have : a.toNat < c.toNat := by omega
            simp [this]
          · by_cases hcb : c.toNat < b.toNat
            · simp [hab, hbc, hcb] at h2
            · have hb : b.toNat = c.toNat := by omega
              have : a.toNat < c.toNat := by omega
              simp [this]
        · by_cases hba : b.toNat < a.toNat
          · simp [hab, hba] at h1
          · have hab' : a.toNat = b.toNat := by omega
            by_cases hbc : b.toNat < c.toNat
            · have : a.toNat < c.toNat := by omega
              simp [this]
            · by_cases hcb : c.toNat < b.toNat
              · simp [hbc, hcb] at h2
              · have : ¬ a.toNat < c.toNat := by omega
                have h2' : ¬ c.toNat < a.toNat := by omega
                simp only [hab, if_false, hba, ite_false] at h1
                simp only [hbc, if_false, hcb, ite_false] at h2
                simp only [this, if_false, h2', ite_false]
                exact ih h1 h2

theorem alLookup_update_self [DecidableEq κ] (l : List (κ × υ)) (k : κ) (v : υ) :
    alLookup (alUpdate l k v) k = some v := by
  induction l with
  | nil => simp [alLookup, alUpdate]
  | cons p rest ih =>
    obtain ⟨k', v'⟩ := p
    by_cases h : k' = k
    · simp [alUpdate, alLookup, h]
    · simp [alUpdate, alLookup, h, ih]

theorem alLookup_update_other [DecidableEq κ] (l : List (κ × υ)) {k k' : κ} (v : υ)
    (h : k' ≠ k) : alLookup (alUpdate l k v) k' = alLookup l k' := by
  induction l with
  | nil => simp [alLookup, alUpdate, Ne.symm h]
  | cons p rest ih =>
    obtain ⟨k'', v''⟩ := p
    by_cases h2 : k'' = k
    · subst h2
      simp [alUpdate, alLookup, Ne.symm h]
    · by_cases h3 : k'' = k'
      · simp [alUpdate, alLookup, h2, h3, h]
      · simp [alUpdate, alLookup, h2, h3, h, ih]

/-- Claim C1 (code bug).  The claim: with a crawl depth budget
max_depth = N, every internal href whose number of path segments
(reduced by one for a trailing html segment) exceeds N is rejected by
the link classifier before any visit, so no page of branch depth
above N is visited.  The code stores self.max_depth (line 533) but
make_href_df constructs HRefCheck without passing it (lines 667 to
669), so the HRefCheck default max_depth = 1 governs instead.  On a
crawl constructed with max_depth = 0, the href /a has branch depth 1,
which exceeds the crawl budget, yet it is classified valid and its
page is visited. -/
theorem claim_C1_depth_not_forwarded :
    cfgC1.maxDepth = 0 ∧
    hrefVisits (runCrawl cfgC1 10).2 = ["https://example.com/a"] ∧
    ((make_href_df cfgC1 (initState cfgC1) ["/a"]).hrefDf.getD []).map
      (fun r => r.url) = ["https://example.com/a"] := by decide

/-- Claim C2 (code bug).  The claim: with a crawl branch budget
max_branch_count = K, at most K distinct links on one branch are
visited, the classifier returning an invalid verdict once the shared
counter of that first path segment exceeds K.  The code stores
self.max_branch_count (line 534) but make_href_df constructs HRefCheck
without passing it (lines 667 to 669), so the HRefCheck default
max_branch_count = 50 governs instead.  On a crawl constructed with
max_branch_count = 2, all three links of branch b are classified valid
and visited, and the shared counter of b reaches 3. -/
theorem claim_C2_branch_count_not_forwarded :
    cfgC2.maxBranchCount = 2 ∧
    hrefVisits (runCrawl cfgC2 10).2 =
      ["https://example.com/b/1.html", "https://example.com/b/2.html",
       "https://example.com/b/3.html"] ∧
    counterGet (runCrawl cfgC2 10).1.branchCount "b" = 3 := by decide

/-! ## Claim C3: stop on a found key -/

/-- Claim C3 counterexample.  The stop key A matches on the seed page
itself, before any hyperlink is followed; the claim then demands that
no hyperlink of the HrefTable be followed at all.  The trace of the
crawl shows the match from the seed (the final match list of A is
nonempty although neither linked page carries matching text) and one
hyperlink visit after it: p1.html is followed, because the stop check
of follow_hrefs runs only after each followed link (lines 769 to 781),
not from the moment a match exists. -/
theorem claim_C3_counterexample :
    (runCrawl cfgC3 10).2 =
      [Event.visit "https://example.com/" true,
       Event.visit "https://example.com/p1.html" false,
       Event.stopSet] ∧
    (runCrawl cfgC3 10).1.foundMatches = [("A", ["hello"])] ∧
    hrefVisits (runCrawl cfgC3 10).2 = ["https://example.com/p1.html"] := by decide

/-! ## Claim C5: frame counter -/

/-- Claim C5 counterexample.  The claim: the frame counter rises once
per frame followed, before each recursion, so a crawl performs at most
max_frames frame recursions.  The source increments the counter once
per page holding a nonempty frame list (line 799) and only then loops
over all frames of that page; on a seed with two frames and
max_frames = 1, two frame recursions happen. -/
theorem claim_C5_counterexample :
    cfgC5.maxFrames = 1 ∧ countFrameRecurse (runCrawl cfgC5 10).2 = 2 := by decide

theorem framesOk_nil (m : Nat) : framesOk m [] = true := rfl

theorem framesOk_append (m : Nat) (a b : List Event) :
    framesOk m (a ++ b) = (framesOk m a && framesOk m b) := by
  simp [framesOk, List.all_append]

theorem framesOk_cons_visit (m : Nat) (u : String) (f : Bool) (evts : List Event) :
    framesOk m (Event.visit u f :: evts) = framesOk m evts := by
  simp [framesOk]

theorem framesOk_cons_stopSet (m : Nat) (evts : List Event) :
    framesOk m (Event.stopSet :: evts) = framesOk m evts := by
  simp [framesOk]

theorem framesOk_cons_frame (m : Nat) (u : String) (c : Nat) (evts : List Event) :
    framesOk m (Event.frameRecurse u c :: evts) = (decide (c ≤ m) && framesOk m evts) := by
  simp [framesOk]

theorem framesOk_hrefStopCheck (cfg : CrawlConfig) (m : Nat) (st3 : CrawlState)
    (evs3 : List Event) (cont : CrawlState → CrawlState × List Event)
    (h3 : framesOk m evs3 = true) (hcont : ∀ s, framesOk m (cont s).2 = true) :
    framesOk m (hrefStopCheck cfg st3 evs3 cont).2 = true := by
  unfold hrefStopCheck
  by_cases hsh : stopKeyFound cfg st3 = true
  · by_cases h3s : st3.stopScanning = true
    · simp [hsh, h3s, framesOk_append, framesOk_cons_stopSet, framesOk_nil, h3, hcont]
    · rw [Bool.not_eq_true] at h3s
      simp [hsh, h3s, framesOk_append, framesOk_cons_stopSet, framesOk_nil, h3, hcont]
  · rw [Bool.not_eq_true] at hsh
    by_cases h3s : st3.stopScanning = true
    · simp [hsh, h3s, framesOk_append, framesOk_nil, h3]
    · rw [Bool.not_eq_true] at h3s
      simp [hsh, h3s, framesOk_append, framesOk_nil, h3, hcont]

/-- Every frame recursion of any run happens while the frame counter
(raised once per frame-bearing page) is at most the budget. -/
theorem crawlStep_framesOk (cfg : CrawlConfig) :
    ∀ (fuel : Nat) (call : Call) (st : CrawlState),
      framesOk cfg.maxFrames (crawlStep cfg fuel call st).2 = true := by
  intro fuel
  induction fuel with
  | zero => intro call st; rfl
  | succ n ih =>
    intro call st
    cases call with
    | patternSearch url follow =>
      simp only [crawlStep]
      split
      · rfl
      · split
        · rfl
        · repeat' split
          all_goals
            simp [framesOk_append, framesOk_cons_visit, framesOk_nil, ih]
    | frameLoop url srcs =>
      cases srcs with
      | nil => rfl
      | cons src rest =>
        simp only [crawlStep]
        repeat' split
        all_goals
          rename_i hg
        · simp [framesOk_append, framesOk_cons_frame, framesOk_nil, ih, hg]
        · simp [framesOk_append, framesOk_nil, ih]
    | hrefsEntry links =>
      simp only [crawlStep]
      apply ih
    | hrefLoop rows =>
      cases rows with
      | nil => rfl
      | cons row rest =>
        simp only [crawlStep]
        split
        · apply ih
        · split
          · apply ih
          · by_cases hb : st.hrefCounter + 1 ≤ cfg.maxHrefs
            · simp only [hb, if_true]
              exact framesOk_hrefStopCheck cfg cfg.maxFrames _ _ _
                (ih (Call.patternSearch row.url false) _)
                (fun s => ih (Call.hrefLoop rest) s)
            · simp only [hb, if_false]
              exact framesOk_hrefStopCheck cfg cfg.maxFrames _ _ _ (framesOk_nil _)
                (fun s => ih (Call.hrefLoop rest) s)

/-- Claim C5 (amended).  The frame-following step increments the frame
counter once per page holding at least one frame (before the loop over
the frames of that page, line 799), not once per frame; each recursion
into a frame is performed only while the counter is at most
max_frames, so frames are followed from at most max_frames
frame-bearing pages, while the number of frame recursions in one crawl
can exceed max_frames (bounded per page by the frame count of the
page).  The theorem: in every run, every frame recursion is admitted
with the counter at most the budget (the counter recorded in the
event is the value the guard of line 804 inspected). -/
theorem claim_C5_amended_frame_budget :
    ∀ (cfg : CrawlConfig) (fuel : Nat) (st : CrawlState) (url : String) (follow : Bool),
      framesOk cfg.maxFrames (recursive_pattern_search cfg fuel st url follow).2 = true :=
  fun cfg fuel st url follow => crawlStep_framesOk cfg fuel _ st

theorem countVisits_append (a b : List Event) :
    countVisits (a ++ b) = countVisits a + countVisits b := by
  simp [countVisits, List.filter_append]

theorem hasStopSet_append (a b : List Event) :
    hasStopSet (a ++ b) = (hasStopSet a || hasStopSet b) := by
  simp [hasStopSet, List.any_append]

theorem hasStopSet_cons_visit (u : String) (f : Bool) (evts : List Event) :
    hasStopSet (Event.visit u f :: evts) = hasStopSet evts := by
  simp [hasStopSet]

theorem hasStopSet_cons_frame (u : String) (c : Nat) (evts : List Event) :
    hasStopSet (Event.frameRecurse u c :: evts) = hasStopSet evts := by
  simp [hasStopSet]

theorem hasStopSet_cons_stopSet (evts : List Event) :
    hasStopSet (Event.stopSet :: evts) = true := by
  simp [hasStopSet]

theorem vass_cons_visit (u : String) (f : Bool) (evts : List Event) :
    visitsAfterStopSet (Event.visit u f :: evts) = visitsAfterStopSet evts := rfl

theorem vass_cons_frame (u : String) (c : Nat) (evts : List Event) :
    visitsAfterStopSet (Event.frameRecurse u c :: evts) = visitsAfterStopSet evts := rfl

theorem vass_cons_stopSet (evts : List Event) :
    visitsAfterStopSet (Event.stopSet :: evts) = countVisits evts := rfl

theorem visitsAfterStopSet_append (a b : List Event) :
    visitsAfterStopSet (a ++ b) =
      visitsAfterStopSet a +
        (if hasStopSet a then countVisits b else visitsAfterStopSet b) := by
  induction a with
  | nil => simp [visitsAfterStopSet, hasStopSet]
  | cons e rest ih =>
    cases e with
    | visit u f =>
      rw [List.cons_append, vass_cons_visit, vass_cons_visit, ih, hasStopSet_cons_visit]
    | frameRecurse u c =>
      rw [List.cons_append, vass_cons_frame, vass_cons_frame, ih, hasStopSet_cons_frame]
    | stopSet =>
      rw [List.cons_append, vass_cons_stopSet, vass_cons_stopSet,
        hasStopSet_cons_stopSet, countVisits_append]
      simp

theorem countVisits_cons_visit (u : String) (f : Bool) (evts : List Event) :
    countVisits (Event.visit u f :: evts) = countVisits evts + 1 := by
  simp [countVisits]

theorem countVisits_cons_frame (u : String) (c : Nat) (evts : List Event) :
    countVisits (Event.frameRecurse u c :: evts) = countVisits evts := by
  simp [countVisits]

theorem countVisits_cons_stopSet (evts : List Event) :
    countVisits (Event.stopSet :: evts) = countVisits evts := by
  simp [countVisits]

theorem stopOk_nil (s : Bool) : stopOk s [] s := by
  refine ⟨fun h => ⟨rfl, rfl, h⟩, fun h => ?_, rfl⟩
  simp [hasStopSet] at h

theorem stopOk_append {s0 s1 s2 : Bool} {a b : List Event}
    (h1 : stopOk s0 a s1) (h2 : stopOk s1 b s2) : stopOk s0 (a ++ b) s2 := by
  obtain ⟨h1a, h1b, h1c⟩ := h1
  obtain ⟨h2a, h2b, h2c⟩ := h2
  refine ⟨?_, ?_, ?_⟩
  · intro h
    obtain ⟨ha1, ha2, ha3⟩ := h1a h
    obtain ⟨hb1, hb2, hb3⟩ := h2a ha3
    refine ⟨?_, ?_, hb3⟩
    · rw [countVisits_append, ha1, hb1]
    · rw [hasStopSet_append, ha2, hb2]
      rfl
  · intro h
    rw [hasStopSet_append, Bool.or_eq_true] at h
    rcases h with h | h
    · exact (h2a (h1b h)).2.2
    · exact h2b h
  · rw [visitsAfterStopSet_append, h1c]
    by_cases h : hasStopSet a
    · simp only [h, if_true, Nat.zero_add]
      exact (h2a (h1b h)).1
    · simp only [h, Bool.false_eq_true, if_false, Nat.zero_add]
      exact h2c

theorem stopOk_cons_visit {evts : List Event} {s' : Bool} (u : String) (f : Bool)
    (h : stopOk false evts s') : stopOk false (Event.visit u f :: evts) s' := by
  obtain ⟨_, hb, hc⟩ := h
  refine ⟨?_, ?_, ?_⟩
  · intro hh
    exact absurd hh (by simp)
  · intro hh
    rw [hasStopSet_cons_visit] at hh
    exact hb hh
  · rw [vass_cons_visit]
    exact hc

theorem stopOk_cons_frame {s s' : Bool} {evts : List Event} (u : String) (c : Nat)
    (h : stopOk s evts s') : stopOk s (Event.frameRecurse u c :: evts) s' := by
  obtain ⟨ha, hb, hc⟩ := h
  refine ⟨?_, ?_, ?_⟩
  · intro hh
    obtain ⟨h1, h2, h3⟩ := ha hh
    refine ⟨?_, ?_, h3⟩
    · rw [countVisits_cons_frame]
      exact h1
    · rw [hasStopSet_cons_frame]
      exact h2
  · intro hh
    rw [hasStopSet_cons_frame] at hh
    exact hb hh
  · rw [vass_cons_frame]
    exact hc

theorem stopOk_stopSet : stopOk false [Event.stopSet] true := by
  refine ⟨?_, fun _ => rfl, ?_⟩
  · intro h
    exact absurd h (by simp)
  · rw [vass_cons_stopSet]
    rfl

/-- Case equations of hrefStopCheck. -/
theorem hrefStopCheck_hit_up {cfg : CrawlConfig} {st3 : CrawlState} (evs3 : List Event)
    (cont : CrawlState → CrawlState × List Event)
    (h1 : stopKeyFound cfg st3 = true) (h2 : st3.stopScanning = true) :
    hrefStopCheck cfg st3 evs3 cont = ({ st3 with stopScanning := true }, evs3) := by
  unfold hrefStopCheck
  simp [h1, h2]

theorem hrefStopCheck_hit_down {cfg : CrawlConfig} {st3 : CrawlState} (evs3 : List Event)
    (cont : CrawlState → CrawlState × List Event)
    (h1 : stopKeyFound cfg st3 = true) (h2 : st3.stopScanning = false) :
    hrefStopCheck cfg st3 evs3 cont =
      ({ st3 with stopScanning := true }, evs3 ++ [Event.stopSet]) := by
  unfold hrefStopCheck
  simp [h1, h2]

theorem hrefStopCheck_miss_up {cfg : CrawlConfig} {st3 : CrawlState} (evs3 : List Event)
    (cont : CrawlState → CrawlState × List Event)
    (h1 : stopKeyFound cfg st3 = false) (h2 : st3.stopScanning = true) :
    hrefStopCheck cfg st3 evs3 cont = (st3, evs3) := by
  unfold hrefStopCheck
  simp [h1, h2]

theorem hrefStopCheck_miss_down {cfg : CrawlConfig} {st3 : CrawlState} (evs3 : List Event)
    (cont : CrawlState → CrawlState × List Event)
    (h1 : stopKeyFound cfg st3 = false) (h2 : st3.stopScanning = false) :
    hrefStopCheck cfg st3 evs3 cont = ((cont st3).1, evs3 ++ (cont st3).2) := by
  unfold hrefStopCheck
  simp [h1, h2]

/-- Transport of the stop invariant along propositional equalities of
the boundary flags. -/
theorem stopOk_congr {s s2 t t2 : Bool} {e : List Event} (hs : s = s2) (ht : t = t2)
    (h : stopOk s2 e t2) : stopOk s e t := by
  subst hs
  subst ht
  exact h

/-- The stop invariant is preserved through the post-visit stop check
of the href loop, for any continuation that itself preserves it. -/
theorem stopOk_hrefStopCheck (cfg : CrawlConfig) {sIn : Bool} (st3 : CrawlState)
    (evs3 : List Event) (cont : CrawlState → CrawlState × List Event)
    (hcont : ∀ s, stopOk s.stopScanning (cont s).2 (cont s).1.stopScanning)
    (hP : stopOk sIn evs3 st3.stopScanning) :
    stopOk sIn (hrefStopCheck cfg st3 evs3 cont).2
      (hrefStopCheck cfg st3 evs3 cont).1.stopScanning := by
  by_cases hsh : stopKeyFound cfg st3 = true
  · by_cases h3 : st3.stopScanning = true
    · rw [hrefStopCheck_hit_up evs3 cont hsh h3]
      rw [h3] at hP
      exact hP
    · rw [Bool.not_eq_true] at h3
      rw [hrefStopCheck_hit_down evs3 cont hsh h3]
      rw [h3] at hP
      exact stopOk_append hP stopOk_stopSet
  · rw [Bool.not_eq_true] at hsh
    by_cases h3 : st3.stopScanning = true
    · rw [hrefStopCheck_miss_up evs3 cont hsh h3]
      exact hP
    · rw [Bool.not_eq_true] at h3
      rw [hrefStopCheck_miss_down evs3 cont hsh h3]
      rw [h3] at hP
      exact stopOk_append hP (stopOk_congr h3.symm rfl (hcont st3))

theorem pageSearch_stopScanning (cfg : CrawlConfig) (st : CrawlState) (url : String)
    (ns : List String) : (pageSearch cfg st url ns).stopScanning = st.stopScanning := by
  unfold pageSearch
  induction cfg.searchRegexp generalizing st with
  | nil => rfl
  | cons km rest ih =>
    simp only [List.foldl_cons]
    rw [ih]
    simp only [searchOneKey]
    split <;> rfl

theorem make_href_df_stopScanning (cfg : CrawlConfig) (st : CrawlState)
    (links : List String) : (make_href_df cfg st links).stopScanning = st.stopScanning := by
  simp [make_href_df]

theorem storeExternalRefs_stopScanning (st : CrawlState) (rows : List HrefRow) :
    (storeExternalRefs st rows).stopScanning = st.stopScanning := rfl

/-- The stop invariant holds of every crawl step. -/
theorem crawlStep_stopOk (cfg : CrawlConfig) :
    ∀ (fuel : Nat) (call : Call) (st : CrawlState),
      stopOk st.stopScanning (crawlStep cfg fuel call st).2
        (crawlStep cfg fuel call st).1.stopScanning := by
  intro fuel
  induction fuel with
  | zero => intro call st; exact stopOk_nil _
  | succ n ih =>
    intro call st
    cases call with
    | patternSearch url follow =>
      simp only [crawlStep]
      split
      · rename_i hstop
        exact stopOk_congr hstop hstop (stopOk_nil true)
      · rename_i hstop
        rw [Bool.not_eq_true] at hstop
        split
        · exact stopOk_congr hstop hstop (stopOk_cons_visit url follow (stopOk_nil false))
        · rename_i page _
          have hst2 : (pageSearch cfg { st with siteExists := true } url
              page.textNodes).stopScanning = false := by
            rw [pageSearch_stopScanning]
            exact hstop
          by_cases hfr : page.frames.isEmpty
          · simp only [hfr, if_true]
            by_cases hf : follow
            · simp only [hf, if_true]
              have hH := ih (Call.hrefsEntry page.links)
                (pageSearch cfg { st with siteExists := true } url page.textNodes)
              exact stopOk_congr hstop rfl
                (stopOk_cons_visit url follow (stopOk_congr hst2.symm rfl hH))
            · simp only [hf, Bool.false_eq_true, if_false]
              exact stopOk_congr hstop hst2
                (stopOk_cons_visit url follow (stopOk_nil false))
          · simp only [hfr, Bool.false_eq_true, if_false]
            have hF := ih (Call.frameLoop url page.frames)
              { pageSearch cfg { st with siteExists := true } url page.textNodes with
                frameCounter :=
                  (pageSearch cfg { st with siteExists := true } url
                    page.textNodes).frameCounter + 1 }
            have hF2 : stopOk false
                (crawlStep cfg n (Call.frameLoop url page.frames)
                  { pageSearch cfg { st with siteExists := true } url page.textNodes with
                    frameCounter :=
                      (pageSearch cfg { st with siteExists := true } url
                        page.textNodes).frameCounter + 1 }).2
                (crawlStep cfg n (Call.frameLoop url page.frames)
                  { pageSearch cfg { st with siteExists := true } url page.textNodes with
                    frameCounter :=
                      (pageSearch cfg { st with siteExists := true } url
                        page.textNodes).frameCounter + 1 }).1.stopScanning :=
              stopOk_congr (show false = _ from hst2.symm) rfl hF
            by_cases hf : follow
            · simp only [hf, if_true]
              have hH := ih (Call.hrefsEntry page.links)
                (crawlStep cfg n (Call.frameLoop url page.frames)
                  { pageSearch cfg { st with siteExists := true } url page.textNodes with
                    frameCounter :=
                      (pageSearch cfg { st with siteExists := true } url
                        page.textNodes).frameCounter + 1 }).1
              exact stopOk_congr hstop rfl
                (stopOk_cons_visit url follow (stopOk_append hF2 hH))
            · simp only [hf, Bool.false_eq_true, if_false]
              exact stopOk_congr hstop rfl (stopOk_cons_visit url follow hF2)
    | frameLoop url srcs =>
      cases srcs with
      | nil => exact stopOk_nil _
      | cons src rest =>
        simp only [crawlStep]
        by_cases hg : st.frameCounter ≤ cfg.maxFrames
        · simp only [hg, if_true]
          exact stopOk_append
            (stopOk_cons_frame _ _ (ih (Call.patternSearch (urljoin url src) true) st))
            (ih (Call.frameLoop (urljoin url src) rest) _)
        · simp only [hg, if_false]
          exact stopOk_append (stopOk_nil _) (ih (Call.frameLoop (urljoin url src) rest) st)
    | hrefsEntry links =>
      simp only [crawlStep]
      have hpres : ((if st.hrefDf.isNone then make_href_df cfg st links
          else st) : CrawlState).stopScanning = st.stopScanning := by
        split
        · exact make_href_df_stopScanning cfg st links
        · rfl
      have hs : st.stopScanning = (storeExternalRefs
          (if st.hrefDf.isNone then make_href_df cfg st links else st)
          ((if st.hrefDf.isNone then make_href_df cfg st links
            else st).hrefDf.getD [])).stopScanning := by
        rw [storeExternalRefs_stopScanning, hpres]
      exact stopOk_congr hs rfl (ih (Call.hrefLoop _) _)
    | hrefLoop rows =>
      cases rows with
      | nil => exact stopOk_nil _
      | cons row rest =>
        simp only [crawlStep]
        split
        · exact ih (Call.hrefLoop rest) { st with hrefCounter := st.hrefCounter + 1 }
        · split
          · exact ih (Call.hrefLoop rest) { st with hrefCounter := st.hrefCounter + 1 }
          · by_cases hb : st.hrefCounter + 1 ≤ cfg.maxHrefs
            · simp only [hb, if_true]
              exact stopOk_hrefStopCheck cfg _ _ _
                (fun s => ih (Call.hrefLoop rest) s)
                (ih (Call.patternSearch row.url false)
                  { st with
                    hrefCounter := st.hrefCounter + 1,
                    followedUrls := st.followedUrls ++ [row.url] })
            · simp only [hb, if_false]
              exact stopOk_hrefStopCheck cfg _ _ _
                (fun s => ih (Call.hrefLoop rest) s) (stopOk_nil _)

/-- Claim C3 (amended).  The stop check runs only after each followed
hyperlink of the href loop (lines 769 to 781): at that check, when any
stop key has at least one match, the crawl-wide stop flag is set (the
stopSet trace event marks the transition), and once the flag is set no
further page is visited for the remainder of the crawl — in
particular no further hyperlink is followed.  A match already present
before a hyperlink is followed (for instance found on the seed page
itself, as the counterexample shows) takes effect only at the first
post-link check, after one more hyperlink has been followed.  The
theorem: in the trace of any recursive search, no visit of any kind
occurs after the stopSet event. -/
theorem claim_C3_amended_no_visit_after_stop :
    ∀ (cfg : CrawlConfig) (fuel : Nat) (st : CrawlState) (url : String) (follow : Bool),
      visitsAfterStopSet (recursive_pattern_search cfg fuel st url follow).2 = 0 :=
  fun cfg fuel st url follow =>
    (crawlStep_stopOk cfg fuel (Call.patternSearch url follow) st).2.2

/-! ## Claim C4: the href table -/

/-- Claim C4 counterexample.  The seed carries the non-relative href
https://example.com/a and the relative href /a, both resolving to the
url https://example.com/a.  The claim says the deduplication keeps the
non-relative record.  The table sort_values([URL_KEY, RELATIVE_KEY])
orders the non-relative (False) record before the relative (True) one
within the url group, and drop_duplicates(keep="last") therefore keeps
the relative record, not the non-relative one. -/
theorem claim_C4_counterexample :
    ((make_href_df cfgC4 (initState cfgC4) linksC4).hrefDf.getD []).map
      (fun r => (r.url, r.relative)) = [("https://example.com/a", true)] := by decide

theorem strCmp_eq_iff {x y : String} : strCmp x y = Ordering.eq ↔ x = y := by
  unfold strCmp
  rw [lexCmpChars_eq_iff]
  constructor
  · intro h
    cases x
    cases y
    exact congrArg String.mk h
  · intro h
    rw [h]

theorem strCmp_self (x : String) : strCmp x x = Ordering.eq := strCmp_eq_iff.mpr rfl

theorem boolLe_refl (a : Bool) : boolLe a a = true := by cases a <;> rfl

theorem boolLe_trans {a b c : Bool} (h1 : boolLe a b = true) (h2 : boolLe b c = true) :
    boolLe a c = true := by
  cases a <;> cases b <;> cases c <;> simp_all [boolLe]

theorem boolLe_total (a b : Bool) : boolLe a b = true ∨ boolLe b a = true := by
  cases a <;> cases b <;> simp [boolLe]

theorem rowLe_of_eq_url {a b : HrefRow} (h : a.url = b.url) :
    rowLeUrlRel a b = boolLe a.relative b.relative := by
  unfold rowLeUrlRel
  rw [h, strCmp_self]

theorem rowLeUrlRel_total (a b : HrefRow) :
    rowLeUrlRel a b = true ∨ rowLeUrlRel b a = true := by
  rcases hc : strCmp a.url b.url with _ | _ | _
  · left
    simp [rowLeUrlRel, hc]
  · have he : a.url = b.url := strCmp_eq_iff.mp hc
    rw [rowLe_of_eq_url he, rowLe_of_eq_url he.symm]
    exact boolLe_total a.relative b.relative
  · right
    have : strCmp b.url a.url = Ordering.lt := by
      unfold strCmp at hc ⊢
      exact (lexCmpChars_swap _ _).mpr hc
    simp [rowLeUrlRel, this]

theorem rowLeUrlRel_trans {a b c : HrefRow} (h1 : rowLeUrlRel a b = true)
    (h2 : rowLeUrlRel b c = true) : rowLeUrlRel a c = true := by
  rcases hab : strCmp a.url b.url with _ | _ | _
  · rcases hbc : strCmp b.url c.url with _ | _ | _
    · have : strCmp a.url c.url = Ordering.lt :=
        lexCmpChars_trans_lt hab hbc
      simp [rowLeUrlRel, this]
    · have he : b.url = c.url := strCmp_eq_iff.mp hbc
      have : strCmp a.url c.url = Ordering.lt := he ▸ hab
      simp [rowLeUrlRel, this]
    · simp [rowLeUrlRel, hbc] at h2
  · have he : a.url = b.url := strCmp_eq_iff.mp hab
    rcases hbc : strCmp b.url c.url with _ | _ | _
    · have : strCmp a.url c.url = Ordering.lt := he ▸ hbc
      simp [rowLeUrlRel, this]
    · have he2 : b.url = c.url := strCmp_eq_iff.mp hbc
      have hac : a.url = c.url := he.trans he2
      rw [rowLe_of_eq_url he] at h1
      rw [rowLe_of_eq_url he2] at h2
      rw [rowLe_of_eq_url hac]
      exact boolLe_trans h1 h2
    · simp [rowLeUrlRel, hbc] at h2
  · simp [rowLeUrlRel, hab] at h1

theorem rowGeRank_total (a b : HrefRow) : rowGeRank a b = true ∨ rowGeRank b a = true := by
  simp [rowGeRank]
  omega

theorem rowGeRank_trans {a b c : HrefRow} (h1 : rowGeRank a b = true)
    (h2 : rowGeRank b c = true) : rowGeRank a c = true := by
  simp [rowGeRank] at *
  omega

theorem dropDup_subset : ∀ (l : List HrefRow) (r : HrefRow),
    r ∈ dropDupKeepLastUrl l → r ∈ l := by
  intro l
  induction l with
  | nil => intro r h; cases h
  | cons x rest ih =>
    intro r h
    by_cases hy : rest.any (fun s => s.url == x.url)
    · simp only [dropDupKeepLastUrl, hy, if_true] at h
      exact List.mem_cons_of_mem x (ih r h)
    · simp only [dropDupKeepLastUrl, hy, Bool.false_eq_true, if_false] at h
      rcases List.mem_cons.mp h with h | h
      · exact h ▸ List.mem_cons_self x rest
      · exact List.mem_cons_of_mem x (ih r h)

theorem dropDup_pairwise_ne (l : List HrefRow) :
    (dropDupKeepLastUrl l).Pairwise (fun x y => x.url ≠ y.url) := by
  induction l with
  | nil => exact List.Pairwise.nil
  | cons x rest ih =>
    by_cases hy : rest.any (fun s => s.url == x.url)
    · simpa only [dropDupKeepLastUrl, hy, if_true] using ih
    · simp only [dropDupKeepLastUrl, hy, Bool.false_eq_true, if_false]
      refine List.Pairwise.cons ?_ ih
      intro y hmem
      have hyrest := dropDup_subset rest y hmem
      rw [Bool.not_eq_true, List.any_eq_false] at hy
      intro hcontra
      exact absurd (by simpa using hcontra.symm) (hy y hyrest)

theorem dropDup_covers : ∀ (l : List HrefRow) (s : HrefRow), s ∈ l →
    ∃ r ∈ dropDupKeepLastUrl l, r.url = s.url := by
  intro l
  induction l with
  | nil => intro s h; cases h
  | cons x rest ih =>
    intro s h
    by_cases hy : rest.any (fun t => t.url == x.url)
    · simp only [dropDupKeepLastUrl, hy, if_true]
      rcases List.mem_cons.mp h with h | h
      · rw [List.any_eq_true] at hy
        obtain ⟨t, htmem, hturl⟩ := hy
        obtain ⟨r, hrmem, hrurl⟩ := ih t htmem
        refine ⟨r, hrmem, ?_⟩
        rw [hrurl, (by simpa using hturl : t.url = x.url), h]
      · exact ih s h
    · simp only [dropDupKeepLastUrl, hy, Bool.false_eq_true, if_false]
      rcases List.mem_cons.mp h with h | h
      · exact ⟨x, List.mem_cons_self x _, by rw [h]⟩
      · obtain ⟨r, hrmem, hrurl⟩ := ih s h
        exact ⟨r, List.mem_cons_of_mem x hrmem, hrurl⟩

theorem dropDup_rel_max : ∀ (l : List HrefRow),
    l.Pairwise (fun x y => rowLeUrlRel x y = true) →
    ∀ r ∈ dropDupKeepLastUrl l, ∀ s ∈ l, s.url = r.url →
      boolLe s.relative r.relative = true := by
  intro l
  induction l with
  | nil => intro _ r h; cases h
  | cons x rest ih =>
    intro hp r hr s hs hurl
    rw [List.pairwise_cons] at hp
    obtain ⟨hx, hrest⟩ := hp
    by_cases hy : rest.any (fun t => t.url == x.url)
    · simp only [dropDupKeepLastUrl, hy, if_true] at hr
      rcases List.mem_cons.mp hs with hsx | hsr
      · -- s is the head: r is a later same-url row, the sort order
        -- within the url group bounds the relative flag of s by that of r
        subst hsx
        have hrmem := dropDup_subset rest r hr
        have hle := hx r hrmem
        rw [rowLe_of_eq_url hurl] at hle
        exact hle
      · exact ih hrest r hr s hsr hurl
    · simp only [dropDupKeepLastUrl, hy, Bool.false_eq_true, if_false] at hr
      rw [Bool.not_eq_true, List.any_eq_false] at hy
      rcases List.mem_cons.mp hr with hrx | hrr
      · rcases List.mem_cons.mp hs with hsx | hsr
        · rw [hsx, hrx]
          exact boolLe_refl _
        · exact absurd (hurl.trans (congrArg HrefRow.url hrx))
            (by simpa using hy s hsr)
      · rcases List.mem_cons.mp hs with hsx | hsr
        · have hrmem := dropDup_subset rest r hrr
          have : r.url = x.url := by rw [← hurl, hsx]
          exact absurd (by simpa using this) (by simpa using hy r hrmem)
        · exact ih hrest r hrr s hsr hurl

/-- Claim C4 (amended).  When the valid hyperlinks of the seed page
contain both a relative and a non-relative record resolving to the
same absolute url, the table keeps exactly one record per resolved url
and the kept record is the RELATIVE one (the (url, relative) sort puts
False before True and drop_duplicates keeps the last row of each url
group); afterwards the table is ordered descending by rank, so every
rank-1 row precedes every rank-0 row.  Stated over the sort-and-
deduplicate stage of make_href_df (lines 708 to 712): the output rows
come from the input, resolved urls are pairwise distinct, every input
url is still represented, the kept row of a url is relative whenever
any input row of that url is relative, and the output is ordered by
non-increasing rank. -/
theorem claim_C4_amended_table_properties :
    ∀ rows : List HrefRow,
      (∀ r ∈ sortAndDedup rows, r ∈ rows) ∧
      (sortAndDedup rows).Pairwise (fun x y => x.url ≠ y.url) ∧
      (∀ s ∈ rows, ∃ r ∈ sortAndDedup rows, r.url = s.url) ∧
      (∀ r ∈ sortAndDedup rows, ∀ s ∈ rows, s.url = r.url →
        s.relative = true → r.relative = true) ∧
      (sortAndDedup rows).Pairwise (fun x y => y.ranking ≤ x.ranking) := by
  intro rows
  have hperm1 := sortBy_perm rowLeUrlRel rows
  have hperm2 := sortBy_perm rowGeRank (dropDupKeepLastUrl (sortBy rowLeUrlRel rows))
  have hsorted1 := pairwise_sortBy rowLeUrlRel
    (fun x y z => rowLeUrlRel_trans) (fun x y => rowLeUrlRel_total x y) rows
  refine ⟨?_, ?_, ?_, ?_, ?_⟩
  · intro r hr
    have hr2 := hperm2.mem_iff.mp hr
    exact hperm1.mem_iff.mp (dropDup_subset _ r hr2)
  · have hne := dropDup_pairwise_ne (sortBy rowLeUrlRel rows)
    exact (hperm2.pairwise_iff (fun h => Ne.symm h)).mpr hne
  · intro s hs
    have hs1 : s ∈ sortBy rowLeUrlRel rows := hperm1.mem_iff.mpr hs
    obtain ⟨r, hrmem, hrurl⟩ := dropDup_covers _ s hs1
    exact ⟨r, hperm2.mem_iff.mpr hrmem, hrurl⟩
  · intro r hr s hs hurl hrel
    have hr2 := hperm2.mem_iff.mp hr
    have hs1 : s ∈ sortBy rowLeUrlRel rows := hperm1.mem_iff.mpr hs
    have := dropDup_rel_max _ hsorted1 r hr2 s hs1 hurl
    rw [hrel] at this
    cases hrl : r.relative
    · rw [hrl] at this
      exact absurd this (by simp [boolLe])
    · rfl
  · have hp := pairwise_sortBy rowGeRank (fun x y z => rowGeRank_trans)
      (fun x y => rowGeRank_total x y) (dropDupKeepLastUrl (sortBy rowLeUrlRel rows))
    exact hp.imp (fun h => by simpa [rowGeRank] using h)

/-- Witness for the amended claim C4: on the two witness rows, the
relative record survives the deduplication. -/
theorem claim_C4_witness :
    rRelC4 ∈ sortAndDedup [rNonC4, rRelC4] ∧ rRelC4.relative = true :=
  ⟨by decide,
    (claim_C4_amended_table_properties [rNonC4, rRelC4]).2.2.2.1 rRelC4 (by decide)
      rRelC4 (by decide) rfl rfl⟩

/-! ## Claim C6: scheme resolution precedence -/

theorem make_contact_success (oracle : Oracle) (st : RequestUrlState)
    (cleanUrl schema : String) (verify : Bool) :
    (make_contact_with_url oracle st cleanUrl schema verify).1 =
      probeSucceeds oracle cleanUrl (schema, verify) := by
  unfold make_contact_with_url probeSucceeds
  rcases h : oracle (add_schema_to_url cleanUrl schema) verify with _ | _ | _ | ⟨status, finalUrl⟩
  all_goals rfl

theorem assignLoop_tried (oracle : Oracle) (cleanUrl : String) :
    ∀ (probes : List (String × Bool)) (st : RequestUrlState),
      (assignLoop oracle cleanUrl st probes).2 =
        match probes.findIdx? (probeSucceeds oracle cleanUrl) with
        | some i => probes.take (i + 1)
        | none => probes := by
  intro probes
  induction probes with
  | nil => intro st; rfl
  | cons p rest ih =>
    intro st
    obtain ⟨schema, verify⟩ := p
    rw [List.findIdx?_cons]
    by_cases hp : probeSucceeds oracle cleanUrl (schema, verify) = true
    · simp only [assignLoop, make_contact_success, hp, if_true]
      rfl
    · rw [Bool.not_eq_true] at hp
      simp only [assignLoop, make_contact_success, hp, Bool.false_eq_true, if_false]
      rw [ih]
      rcases h2 : rest.findIdx? (probeSucceeds oracle cleanUrl) with _ | i
      · simp [h2]
      · simp [h2, List.take_succ_cons]

/-- Claim C6 (confirmed).  Scheme resolution probes in the fixed order
https with verification, https without verification, then http (with
and without verification), stopping at the first probe that returns
HTTP 200; hence when the target is reachable on both schemes — each
scheme serves a 200 whose final url stays on that scheme — only the
first probe runs, and the resolved url is the https one with
certificate verification on and the certificate recorded valid. -/
theorem claim_C6_scheme_precedence :
    ∀ (oracle : Oracle) (url : String),
      ((requestUrlInitNoSchema oracle url).2 =
        match probeSeq.findIdx? (probeSucceeds oracle (strip_url_schema url)) with
        | some i => probeSeq.take (i + 1)
        | none => probeSeq) ∧
      (∀ finalHttps finalHttp : String,
        oracle (add_schema_to_url (strip_url_schema url) "https") true =
          ProbeResult.response 200 finalHttps →
        oracle (add_schema_to_url (strip_url_schema url) "http") true =
          ProbeResult.response 200 finalHttp →
        strStarts finalHttps "https://" = true →
        (requestUrlInitNoSchema oracle url).2 = [("https", true)] ∧
        (requestUrlInitNoSchema oracle url).1.url = some finalHttps ∧
        (requestUrlInitNoSchema oracle url).1.schema = some "https" ∧
        (requestUrlInitNoSchema oracle url).1.ssl = some true ∧
        (requestUrlInitNoSchema oracle url).1.sslValid = true ∧
        (requestUrlInitNoSchema oracle url).1.statusCode = some 200) := by
  intro oracle url
  constructor
  · unfold requestUrlInitNoSchema assign_protocol_to_url
    rw [assignLoop_tried]
  · intro finalHttps finalHttp hHttps hHttp hSsl
    have hmc : make_contact_with_url oracle initialRequestUrlState (strip_url_schema url)
        "https" true =
        (true, { initialRequestUrlState with
                  verify := true
                  statusCode := some 200
                  url := some finalHttps }) := by
      unfold make_contact_with_url
      rw [hHttps]
      rfl
    unfold requestUrlInitNoSchema assign_protocol_to_url probeSeq assignLoop
    rw [hmc]
    simp [requestUrlPostlude, hSsl, initialRequestUrlState]

/-- Witness for claim C6 at a concrete both-schemes-reachable target. -/
theorem claim_C6_witness :
    (requestUrlInitNoSchema oracleC6 "example.com").2 = [("https", true)] ∧
    (requestUrlInitNoSchema oracleC6 "example.com").1.url = some "https://example.com/" ∧
    (requestUrlInitNoSchema oracleC6 "example.com").1.schema = some "https" := by
  have h := (claim_C6_scheme_precedence oracleC6 "example.com").2
    "https://example.com/" "http://example.com/" (by decide) (by decide) (by decide)
  exact ⟨h.1, h.2.1, h.2.2.1⟩

/-! ## Claim C9: failed scheme resolution -/

/-- Claim C9 counterexample.  With every (scheme, verify) combination
failing — no probe returns 200, so resolution fails — the claim says
the resolved url and the status code both remain unset.  When the
failures are non-200 HTTP responses rather than exceptions, the
response branch of make_contact_with_url (lines 360 to 367) stores the
status code and the final url before testing for 200, so both
attributes end up set. -/
theorem claim_C9_counterexample :
    probeSeq.all
      (fun p => ! probeSucceeds oracleAll404 (strip_url_schema "example.com") p) = true ∧
    (requestUrlInitNoSchema oracleAll404 "example.com").1.statusCode = some 404 ∧
    (requestUrlInitNoSchema oracleAll404 "example.com").1.url =
      some "http://example.com/" := by decide

theorem make_contact_exception (oracle : Oracle) (st : RequestUrlState)
    (cleanUrl schema : String) (verify : Bool)
    (hex : isExceptionResult (oracle (add_schema_to_url cleanUrl schema) verify) = true) :
    (make_contact_with_url oracle st cleanUrl schema verify).1 = false ∧
    (make_contact_with_url oracle st cleanUrl schema verify).2.url = st.url ∧
    (make_contact_with_url oracle st cleanUrl schema verify).2.statusCode = st.statusCode ∧
    (make_contact_with_url oracle st cleanUrl schema verify).2.schema = st.schema := by
  unfold make_contact_with_url
  rcases h : oracle (add_schema_to_url cleanUrl schema) verify with _ | _ | _ | ⟨u, v⟩
  · exact ⟨rfl, rfl, rfl, rfl⟩
  · exact ⟨rfl, rfl, rfl, rfl⟩
  · exact ⟨rfl, rfl, rfl, rfl⟩
  · rw [h] at hex
    simp [isExceptionResult] at hex

theorem assignLoop_exception (oracle : Oracle) (cleanUrl : String) :
    ∀ (probes : List (String × Bool)) (st : RequestUrlState),
      (∀ p ∈ probes,
        isExceptionResult (oracle (add_schema_to_url cleanUrl p.1) p.2) = true) →
      (assignLoop oracle cleanUrl st probes).1.url = st.url ∧
      (assignLoop oracle cleanUrl st probes).1.statusCode = st.statusCode ∧
      (assignLoop oracle cleanUrl st probes).1.schema = st.schema := by
  intro probes
  induction probes with
  | nil => intro st _; exact ⟨rfl, rfl, rfl⟩
  | cons p rest ih =>
    intro st hall
    obtain ⟨schema, verify⟩ := p
    have hmc := make_contact_exception oracle st cleanUrl schema verify
      (hall (schema, verify) (List.mem_cons_self _ _))
    unfold assignLoop
    rcases hm : make_contact_with_url oracle st cleanUrl schema verify with ⟨succ, st1⟩
    rw [hm] at hmc
    obtain ⟨h1, h2, h3, h4⟩ := hmc
    have hsucc : succ = false := h1
    subst hsucc
    simp only [Bool.false_eq_true, if_false]
    have hih := ih st1 (fun q hq => hall q (List.mem_cons_of_mem _ hq))
    rcases hr : assignLoop oracle cleanUrl st1 rest with ⟨st2, tried⟩
    rw [hr] at hih
    exact ⟨hih.1.trans h2, (hih.2.1).trans h3, (hih.2.2).trans h4⟩

/-- Claim C9 (amended).  When every (scheme, verify) probe fails with
a transport exception — rather than with a non-200 HTTP response —
RequestUrl construction completes without raising (every exception is
caught inside make_contact_with_url), and the resolved url, the status
code and the schema all remain unset, which is how the caller observes
an unreachable host.  The counterexample shows the claim fails when
the combinations fail with non-200 responses instead. -/
theorem claim_C9_amended_unreachable :
    ∀ (oracle : Oracle) (url : String),
      (∀ p ∈ probeSeq,
        isExceptionResult (oracle (add_schema_to_url (strip_url_schema url) p.1) p.2)
          = true) →
      (requestUrlInitNoSchema oracle url).1.url = none ∧
      (requestUrlInitNoSchema oracle url).1.statusCode = none ∧
      (requestUrlInitNoSchema oracle url).1.schema = none := by
  intro oracle url hall
  have h := assignLoop_exception oracle (strip_url_schema url) probeSeq
    initialRequestUrlState hall
  unfold requestUrlInitNoSchema assign_protocol_to_url
  rcases hr : assignLoop oracle (strip_url_schema url) initialRequestUrlState probeSeq
    with ⟨stf, tried⟩
  rw [hr] at h
  have hu : stf.url = none := h.1
  have hpost : requestUrlPostlude stf = stf := by
    unfold requestUrlPostlude
    rw [hu]
  refine ⟨?_, ?_, ?_⟩
  · show (requestUrlPostlude stf).url = none
    rw [hpost]
    exact hu
  · show (requestUrlPostlude stf).statusCode = none
    rw [hpost]
    exact h.2.1
  · show (requestUrlPostlude stf).schema = none
    rw [hpost]
    exact h.2.2

/-- Witness for the amended claim C9: an oracle failing every probe
with a connection error leaves everything unset. -/
theorem claim_C9_witness :
    (requestUrlInitNoSchema (fun _ _ => ProbeResult.connError) "example.com").1.url = none ∧
    (requestUrlInitNoSchema (fun _ _ => ProbeResult.connError)
      "example.com").1.statusCode = none ∧
    (requestUrlInitNoSchema (fun _ _ => ProbeResult.connError)
      "example.com").1.schema = none :=
  claim_C9_amended_unreachable (fun _ _ => ProbeResult.connError) "example.com" (by decide)

/-! ## Claims C7 and C8: the disk cache -/

/-- Claim C7 (confirmed).  After a cache miss and a fresh computation
the entry is persisted unless the caller passed skip_cache, or the
size budget is exactly zero, or a nonzero budget is configured and the
directory size already meets or exceeds it; and with a budget of
exactly zero no call ever changes the file system while reads are
still served from existing entries.  The first equation characterises
the resulting file system of any call: a new entry appears exactly
when the read missed with a caught error, the caller did not skip, and
the write-admission test passes.  The second and third equations are
the budget-zero case: the file system is untouched and the result is
the cached value on a hit, the fresh value on a caught miss (a corrupt
blob still raises, as claim C8 records). -/
theorem claim_C7_write_admission :
    ∀ (α : Type) (fs : CacheFs α) (funcName argsRendered : String) (skipCache : Bool)
      (mcds : Option Nat) (dir : String) (fres : α) (wsize : Nat),
      ((cache_to_disk fs funcName argsRendered skipCache mcds dir fres wsize).2.1 =
        if skipCache = false ∧
            readMissCaught (loadAt fs (dir ++ "/" ++ make_cache_file_name funcName
              argsRendered)) = true ∧
            skip_write_new_cache mcds (get_dir_size fs dir) = false
        then fsStore fs (dir ++ "/" ++ make_cache_file_name funcName argsRendered)
          ⟨wsize, LoadOutcome.ok fres⟩
        else fs) ∧
      (cache_to_disk fs funcName argsRendered false (some 0) dir fres wsize).2.1 = fs ∧
      ((cache_to_disk fs funcName argsRendered false (some 0) dir fres wsize).1 =
        match loadAt fs (dir ++ "/" ++ make_cache_file_name funcName argsRendered) with
        | some (LoadOutcome.ok v) => WrapperResult.ok v
        | some LoadOutcome.unpicklingError => WrapperResult.raisedUnpickling
        | _ => WrapperResult.ok fres) := by
  intro α fs funcName argsRendered skipCache mcds dir fres wsize
  refine ⟨?_, ?_, ?_⟩
  · unfold cache_to_disk
    by_cases hskip : skipCache = true
    · simp [hskip]
    · rw [Bool.not_eq_true] at hskip
      subst hskip
      simp only [Bool.false_eq_true, if_false, true_and]
      rcases hl : loadAt fs (dir ++ "/" ++ make_cache_file_name funcName argsRendered)
        with _ | c
      · simp only [hl, readMissCaught, true_and]
        split <;> rename_i hw
        · simp [hw]
        · simp [hw]
      · cases c with
        | ok v => simp [hl, readMissCaught]
        | eofError =>
          simp only [hl, readMissCaught, true_and]
          split <;> rename_i hw
          · simp [hw]
          · simp [hw]
        | osError =>
          simp only [hl, readMissCaught, true_and]
          split <;> rename_i hw
          · simp [hw]
          · simp [hw]
        | unpicklingError => simp [hl, readMissCaught]
  · unfold cache_to_disk
    simp only [Bool.false_eq_true, if_false]
    rcases hl : loadAt fs (dir ++ "/" ++ make_cache_file_name funcName argsRendered)
      with _ | c
    · simp [hl, skip_write_new_cache]
    · cases c <;> simp [hl, skip_write_new_cache]
  · unfold cache_to_disk
    simp only [Bool.false_eq_true, if_false]
    rcases hl : loadAt fs (dir ++ "/" ++ make_cache_file_name funcName argsRendered)
      with _ | c
    · simp [hl]
    · cases c <;> simp [hl]

/-- Claim C8 counterexample.  A cache entry whose blob deserialization
raises pickle.UnpicklingError (a corrupt file that is neither
truncated nor an I/O error) is not caught by the except clause of the
wrapper, which lists only FileNotFoundError, OSError and EOFError: the
exception propagates to the caller and the wrapped function is not
invoked, against the claim that any deserialization failure is
treated uniformly as a cache miss. -/
theorem claim_C8_counterexample :
    (cache_to_disk (α := Nat) [("cache/f_1_.pkl", ⟨1, LoadOutcome.unpicklingError⟩)]
      "f" "(1,)" false none "cache" 42 9).1 = WrapperResult.raisedUnpickling ∧
    (cache_to_disk (α := Nat) [("cache/f_1_.pkl", ⟨1, LoadOutcome.unpicklingError⟩)]
      "f" "(1,)" false none "cache" 42 9).2.2 = false := by decide

/-- Claim C8 (amended).  On the read path, a missing file, a truncated
file (EOFError) or an OS error is treated as a cache miss: the wrapped
function is invoked and its result returned, with no exception; on a
successful read the cached value is returned, the file system is
untouched and the wrapped function is not invoked; but a corrupt blob
whose deserialization raises pickle.UnpicklingError is outside the
caught exception tuple and propagates to the caller without invoking
the wrapped function. -/
theorem claim_C8_amended_read_path :
    ∀ (α : Type) (fs : CacheFs α) (funcName argsRendered : String)
      (mcds : Option Nat) (dir : String) (fres : α) (wsize : Nat),
      (∀ v, loadAt fs (dir ++ "/" ++ make_cache_file_name funcName argsRendered) =
          some (LoadOutcome.ok v) →
        cache_to_disk fs funcName argsRendered false mcds dir fres wsize =
          (WrapperResult.ok v, fs, false)) ∧
      (readMissCaught (loadAt fs (dir ++ "/" ++ make_cache_file_name funcName
          argsRendered)) = true →
        (cache_to_disk fs funcName argsRendered false mcds dir fres wsize).1 =
          WrapperResult.ok fres ∧
        (cache_to_disk fs funcName argsRendered false mcds dir fres wsize).2.2 = true) ∧
      (loadAt fs (dir ++ "/" ++ make_cache_file_name funcName argsRendered) =
          some LoadOutcome.unpicklingError →
        cache_to_disk fs funcName argsRendered false mcds dir fres wsize =
          (WrapperResult.raisedUnpickling, fs, false)) := by
  intro α fs funcName argsRendered mcds dir fres wsize
  refine ⟨?_, ?_, ?_⟩
  · intro v hl
    unfold cache_to_disk
    simp [hl]
  · intro hmiss
    unfold cache_to_disk
    rcases hl : loadAt fs (dir ++ "/" ++ make_cache_file_name funcName argsRendered)
      with _ | c
    · constructor <;> simp [hl]
    · rw [hl] at hmiss
      cases c with
      | ok v => simp [readMissCaught] at hmiss
      | eofError => constructor <;> simp [hl]
      | osError => constructor <;> simp [hl]
      | unpicklingError => simp [readMissCaught] at hmiss
  · intro hl
    unfold cache_to_disk
    simp [hl]

/-- Witness for the amended claim C8: a truncated entry (EOFError) is
treated as a miss — the wrapped function runs and its value comes
back. -/
theorem claim_C8_witness :
    (cache_to_disk (α := Nat) [("cache/f_1_.pkl", ⟨1, LoadOutcome.eofError⟩)]
      "f" "(1,)" false none "cache" 42 9).1 = WrapperResult.ok 42 ∧
    (cache_to_disk (α := Nat) [("cache/f_1_.pkl", ⟨1, LoadOutcome.eofError⟩)]
      "f" "(1,)" false none "cache" 42 9).2.2 = true :=
  (claim_C8_amended_read_path Nat [("cache/f_1_.pkl", ⟨1, LoadOutcome.eofError⟩)]
    "f" "(1,)" none "cache" 42 9).2.1 (by decide)

/-! ## Claim C10: the match-to-url side table -/

theorem alLookup_foldl_update (u : String) :
    ∀ (ms : List String) (inner : List (String × String)) (m : String),
      alLookup (ms.foldl (fun acc x => alUpdate acc x u) inner) m =
        if m ∈ ms then some u else alLookup inner m := by
  intro ms
  induction ms with
  | nil => intro inner m; simp
  | cons r rs ih =>
    intro inner m
    simp only [List.foldl_cons]
    rw [ih]
    by_cases hm : m ∈ rs
    · simp [hm]
    · by_cases hr : m = r
      · subst hr
        simp [hm, alLookup_update_self]
      · rw [alLookup_update_other _ _ hr]
        simp [List.mem_cons, hr, hm]

theorem searchOneKey_other (u : String) (ns : List String) (st : CrawlState)
    (k' : String) (f' : String → List String) (key : String) (h : k' ≠ key) :
    matchesOf (searchOneKey u ns st (k', f')) key = matchesOf st key ∧
    ∀ m, urlOfMatch (searchOneKey u ns st (k', f')) key m = urlOfMatch st key m := by
  simp only [searchOneKey, matchesOf, urlOfMatch]
  split
  · exact ⟨rfl, fun m => rfl⟩
  · constructor
    · simp [alLookup_update_other _ _ (Ne.symm h)]
    · intro m
      simp [alLookup_update_other _ _ (Ne.symm h)]

theorem searchOneKey_self (u : String) (ns : List String) (st : CrawlState)
    (key : String) (matcher : String → List String) :
    matchesOf (searchOneKey u ns st (key, matcher)) key =
      matchesOf st key ++ get_patterns ns matcher ∧
    ∀ m, urlOfMatch (searchOneKey u ns st (key, matcher)) key m =
      if m ∈ get_patterns ns matcher then some u else urlOfMatch st key m := by
  simp only [searchOneKey, matchesOf, urlOfMatch]
  split
  · rename_i hempty
    rw [List.isEmpty_iff] at hempty
    rw [hempty]
    constructor
    · simp
    · intro m
      simp
  · constructor
    · simp [alLookup_update_self, alLookup_update_other, matchesOf]
    · intro m
      simp only [alLookup_update_self, Option.getD_some]
      rw [alLookup_foldl_update]

theorem foldl_searchOneKey_not_mem (u : String) (ns : List String) (key : String) :
    ∀ (l : List (String × (String → List String))) (st : CrawlState),
      key ∉ l.map Prod.fst →
      matchesOf (l.foldl (searchOneKey u ns) st) key = matchesOf st key ∧
      ∀ m, urlOfMatch (l.foldl (searchOneKey u ns) st) key m = urlOfMatch st key m := by
  intro l
  induction l with
  | nil => intro st _; exact ⟨rfl, fun m => rfl⟩
  | cons p rest ih =>
    intro st hmem
    obtain ⟨k', f'⟩ := p
    simp only [List.map_cons, List.mem_cons, not_or] at hmem
    obtain ⟨hk, hrest⟩ := hmem
    simp only [List.foldl_cons]
    have h1 := searchOneKey_other u ns st k' f' key (fun hh => hk hh.symm)
    have h2 := ih (searchOneKey u ns st (k', f')) (by simpa using hrest)
    exact ⟨h2.1.trans h1.1, fun m => (h2.2 m).trans (h1.2 m)⟩

theorem foldl_searchOneKey_mem (u : String) (ns : List String) (key : String)
    (matcher : String → List String) :
    ∀ (l : List (String × (String → List String))) (st : CrawlState),
      (l.map Prod.fst).Nodup → (key, matcher) ∈ l →
      matchesOf (l.foldl (searchOneKey u ns) st) key =
        matchesOf st key ++ get_patterns ns matcher ∧
      ∀ m, urlOfMatch (l.foldl (searchOneKey u ns) st) key m =
        if m ∈ get_patterns ns matcher then some u else urlOfMatch st key m := by
  intro l
  induction l with
  | nil => intro st _ hmem; cases hmem
  | cons p rest ih =>
    intro st hnodup hmem
    obtain ⟨k', f'⟩ := p
    simp only [List.map_cons, List.nodup_cons] at hnodup
    obtain ⟨hknotin, hnodup2⟩ := hnodup
    by_cases hk : k' = key
    · subst hk
      have hpair : f' = matcher := by
        rcases List.mem_cons.mp hmem with hh | hh
        · exact (Prod.mk.injEq _ _ _ _ ▸ hh.symm).2
        · exact absurd (List.mem_map_of_mem Prod.fst hh) hknotin
      subst hpair
      simp only [List.foldl_cons]
      have hself := searchOneKey_self u ns st k' f'
      have hrest := foldl_searchOneKey_not_mem u ns k' rest
        (searchOneKey u ns st (k', f')) hknotin
      refine ⟨hrest.1.trans hself.1, fun m => (hrest.2 m).trans (hself.2 m)⟩
    · have hmem2 : (key, matcher) ∈ rest := by
        rcases List.mem_cons.mp hmem with hh | hh
        · exact absurd (congrArg Prod.fst hh).symm hk
        · exact hh
      simp only [List.foldl_cons]
      have hother := searchOneKey_other u ns st k' f' key hk
      have hih := ih (searchOneKey u ns st (k', f')) hnodup2 hmem2
      refine ⟨hih.1.trans (by rw [hother.1]), fun m => (hih.2 m).trans ?_⟩
      by_cases hin : m ∈ get_patterns ns matcher
      · simp [hin]
      · simp [hin, hother.2 m]

/-- Claim C10 (confirmed).  Along any sequence of visited pages, the
match list of a key accumulates every (whitespace-stripped) match in
visit order, duplicates included, while the side table maps each match
string to the url of the most recently visited page on which it
matched — a later page with the same match string overwrites the url,
and when no visited page matched the string, the entry is whatever it
was before. -/
theorem claim_C10_url_per_match :
    ∀ (cfg : CrawlConfig) (st : CrawlState) (key : String)
      (matcher : String → List String) (ps : List (String × List String)),
      (cfg.searchRegexp.map Prod.fst).Nodup →
      (key, matcher) ∈ cfg.searchRegexp →
      matchesOf (visitPages cfg st ps) key =
        matchesOf st key ++ ps.flatMap (fun p => get_patterns p.2 matcher) ∧
      ∀ m : String,
        urlOfMatch (visitPages cfg st ps) key m =
          match lastUrlWith matcher m ps with
          | some u => some u
          | none => urlOfMatch st key m := by
  intro cfg st key matcher ps hnodup hmem
  induction ps generalizing st with
  | nil =>
    refine ⟨by simp [visitPages], fun m => ?_⟩
    simp [visitPages, lastUrlWith]
  | cons p rest ih =>
    obtain ⟨u, ns⟩ := p
    have hpage : matchesOf (pageSearch cfg st u ns) key =
        matchesOf st key ++ get_patterns ns matcher ∧
        ∀ m, urlOfMatch (pageSearch cfg st u ns) key m =
          if m ∈ get_patterns ns matcher then some u else urlOfMatch st key m :=
      foldl_searchOneKey_mem u ns key matcher cfg.searchRegexp st hnodup hmem
    have hvp : visitPages cfg st ((u, ns) :: rest) =
        visitPages cfg (pageSearch cfg st u ns) rest := rfl
    have hih := ih (pageSearch cfg st u ns)
    rw [hvp]
    refine ⟨?_, fun m => ?_⟩
    · rw [hih.1, hpage.1]
      simp [List.flatMap_cons, List.append_assoc]
    · rw [hih.2 m]
      have hone : urlOfMatch (pageSearch cfg st u ns) key m =
          if m ∈ get_patterns ns matcher then some u else urlOfMatch st key m :=
        hpage.2 m
      have hlast : lastUrlWith matcher m ((u, ns) :: rest) =
          match lastUrlWith matcher m rest with
          | some w => some w
          | none => if m ∈ get_patterns ns matcher then some u else none := by
        unfold lastUrlWith
        by_cases hin : m ∈ get_patterns ns matcher
        · have hfc : List.filter (fun p => decide (m ∈ get_patterns p.2 matcher))
              ((u, ns) :: rest) = (u, ns) ::
              List.filter (fun p => decide (m ∈ get_patterns p.2 matcher)) rest := by
            simp [List.filter_cons, hin]
          rw [hfc]
          rcases hfr : List.filter (fun p => decide (m ∈ get_patterns p.2 matcher)) rest
            with _ | ⟨q, qs⟩
          · rw [hfr]; simp [hin]
          · have hsome : ∃ w, (q :: qs).getLast? = some w := by
              cases hg : (q :: qs).getLast? with
              | none => exact absurd ((List.getLast?_eq_none_iff).mp hg) (by simp)
              | some w => exact ⟨w, rfl⟩
            obtain ⟨w, hw⟩ := hsome
            rw [hfr, List.getLast?_cons_cons, hw]
            simp
        · have hfc : List.filter (fun p => decide (m ∈ get_patterns p.2 matcher))
              ((u, ns) :: rest) =
              List.filter (fun p => decide (m ∈ get_patterns p.2 matcher)) rest := by
            simp [List.filter_cons, hin]
          rw [hfc]
          rcases hg : (List.filter (fun p => decide (m ∈ get_patterns p.2 matcher))
            rest).getLast? with _ | w
          · rw [hg]; simp [hin]
          · rw [hg]; simp
      rw [hlast]
      rcases hr2 : lastUrlWith matcher m rest with _ | w
      · simp only
        rw [hone]
        by_cases hin : m ∈ get_patterns ns matcher
        · simp [hin]
        · simp [hin]
      · simp

/-- Witness for claim C10: with one key P and two visited pages both
matching 1234 AB, the match list keeps both stripped occurrences and
the side table maps 1234 AB to the url of the second page. -/
theorem claim_C10_witness :
    (cfgC10.searchRegexp.map Prod.fst).Nodup ∧
    ("P", matchPostcode) ∈ cfgC10.searchRegexp ∧
    matchesOf (visitPages cfgC10 (initState cfgC10) pagesC10) "P" =
      ["1234 AB", "1234 AB"] ∧
    urlOfMatch (visitPages cfgC10 (initState cfgC10) pagesC10) "P" "1234 AB" =
      some "https://example.com/contact" := by
  have hnd : (cfgC10.searchRegexp.map Prod.fst).Nodup := by
    simp [cfgC10, baseCfg]
  have hmem : ("P", matchPostcode) ∈ cfgC10.searchRegexp :=
    List.mem_cons_self _ _
  have h := claim_C10_url_per_match cfgC10 (initState cfgC10) "P" matchPostcode
    pagesC10 hnd hmem
  refine ⟨hnd, hmem, ?_, ?_⟩
  · rw [h.1]; rfl
  · rw [h.2 "1234 AB"]; rfl

end CbsUtils
